import Mathlib

/-! Formal model of the MH.Tools.TtsAndSrtGenerate timing/alignment subsystem:
the audio stitcher (`src/src/services/stitcher.py`), the forced-alignment
service (`src/src/services/aligner.py`), the quality scorer and retry
orchestration (`src/src/pipeline/lesson_pipeline.py`), and the SRT subtitle
utilities (`src/src/utils/srt.py`), embedded as executable Lean definitions.
Machine integers are modelled by `Int`/`Nat` (Python ints are unbounded),
Python floats by `ℚ`, Python strings by `String`/`List Char`, raised
exceptions by `Except`/`Option`. -/

namespace TtsSrt

/-! Python-style character/string primitives: `str.split` (with and without a
separator), `str.strip`, `int()` parsing and decimal formatting, modelling
CPython semantics on `List Char`. -/

/-- Characters treated as whitespace by Python `str.split()` / `str.strip()`. -/
def isPyWs (c : Char) : Bool :=
  c = ' ' || c = '\t' || c = '\n' || c = '\r' || c = '\x0b' || c = '\x0c'

/-- Helper for Python `str.split()` with no separator: split on whitespace
runs, dropping empty pieces.  The accumulator holds the current word
reversed. -/
def splitWsAux : List Char → List Char → List (List Char)
  | [], acc => if acc.isEmpty then [] else [acc.reverse]
  | c :: rest, acc =>
    if isPyWs c then
      if acc.isEmpty then splitWsAux rest []
      else acc.reverse :: splitWsAux rest []
    else splitWsAux rest (c :: acc)

/-- Python `str.split()` (no separator argument). -/
def pySplitWs (s : List Char) : List (List Char) := splitWsAux s []

/-- Python `str.strip()`: remove leading and trailing whitespace. -/
def pyStrip (l : List Char) : List Char :=
  ((l.dropWhile isPyWs).reverse.dropWhile isPyWs).reverse

/-- Python `str.split(sep)` for a single-character separator; keeps empty
pieces, like CPython. -/
def splitCharAux (sep : Char) : List Char → List Char → List (List Char)
  | [], acc => [acc.reverse]
  | c :: rest, acc =>
    if c = sep then acc.reverse :: splitCharAux sep rest []
    else splitCharAux sep rest (c :: acc)

/-- Python `str.split(sep)` for a one-character `sep`. -/
def pySplitChar (sep : Char) (l : List Char) : List (List Char) :=
  splitCharAux sep l []

/-- Python `sep.join(pieces)` for a single-character separator. -/
def joinChar (sep : Char) : List (List Char) → List Char
  | [] => []
  | [x] => x
  | x :: y :: rest => x ++ sep :: joinChar sep (y :: rest)

/-- Python `str.split("\n\n")`: split on non-overlapping occurrences of a
blank line, scanning left to right. -/
def splitBlankAux : List Char → List Char → List (List Char)
  | [], acc => [acc.reverse]
  | [c], acc => [(c :: acc).reverse]
  | c1 :: c2 :: rest, acc =>
    if c1 = '\n' ∧ c2 = '\n' then acc.reverse :: splitBlankAux rest []
    else splitBlankAux (c2 :: rest) (c1 :: acc)

/-- Python `content.split("\n\n")`. -/
def pySplitBlank (l : List Char) : List (List Char) := splitBlankAux l []

/-- Python `str.split(" --> ")`: split on non-overlapping occurrences of the
five-character SRT arrow separator, scanning left to right (on a space that
does not open a full separator occurrence, the scan advances one character,
exactly as CPython's find-based split does). -/
def splitArrowAux : List Char → List Char → List (List Char)
  | [], acc => [acc.reverse]
  | [c1], acc => [acc.reverse ++ [c1]]
  | [c1, c2], acc => [acc.reverse ++ [c1, c2]]
  | [c1, c2, c3], acc => [acc.reverse ++ [c1, c2, c3]]
  | [c1, c2, c3, c4], acc => [acc.reverse ++ [c1, c2, c3, c4]]
  | c1 :: c2 :: c3 :: c4 :: c5 :: rest, acc =>
    if c1 = ' ' ∧ c2 = '-' ∧ c3 = '-' ∧ c4 = '>' ∧ c5 = ' ' then
      acc.reverse :: splitArrowAux rest []
    else splitArrowAux (c2 :: c3 :: c4 :: c5 :: rest) (c1 :: acc)

/-- Python `timing.split(" --> ")`. -/
def pySplitArrow (l : List Char) : List (List Char) := splitArrowAux l []

/-- Decimal digit character for a digit value below ten. -/
def dCh : Nat → Char
  | 0 => '0'
  | 1 => '1'
  | 2 => '2'
  | 3 => '3'
  | 4 => '4'
  | 5 => '5'
  | 6 => '6'
  | 7 => '7'
  | 8 => '8'
  | _ => '9'

/-- Is this character a decimal digit. -/
def isDigitCh (c : Char) : Bool := '0' ≤ c && c ≤ '9'

/-- Numeric value of a digit character. -/
def digitVal (c : Char) : Nat := c.toNat - 48

/-- Decimal digits of `n`, most significant first, fuel-bounded so that the
definition is structural (the fuel `n + 1` always suffices). -/
def digitsAux : Nat → Nat → List Char → List Char
  | 0, _, acc => acc
  | fuel + 1, n, acc =>
    if n < 10 then dCh n :: acc
    else digitsAux fuel (n / 10) (dCh (n % 10) :: acc)

/-- Python `str(n)` for a natural number. -/
def natToChars (n : Nat) : List Char := digitsAux (n + 1) n []

/-- Python `str(z)` for an integer. -/
def intToChars (z : Int) : List Char :=
  if z < 0 then '-' :: natToChars z.natAbs else natToChars z.toNat

/-- Value of a digit string (fold used by `int()` on validated digits). -/
def valNat (l : List Char) : Nat :=
  l.foldl (fun a c => a * 10 + digitVal c) 0

/-- Python `int(s)` on an all-digit string: `some` value, or `none`
(a raised `ValueError`) if the string is empty or has a non-digit. -/
def parseNatChars (l : List Char) : Option Nat :=
  if !l.isEmpty && l.all isDigitCh then some (valNat l) else none

/-- Python `int(s)`: strips whitespace, allows an optional sign, then requires
decimal digits.  `none` models a raised `ValueError`.  (CPython additionally
accepts underscore digit grouping, which never occurs in this system's data
and is not modelled.) -/
def parseIntChars (l : List Char) : Option Int :=
  match pyStrip l with
  | [] => none
  | c :: rest =>
    if c = '-' then (parseNatChars rest).map (fun n => -(Int.ofNat n))
    else if c = '+' then (parseNatChars rest).map Int.ofNat
    else (parseNatChars (c :: rest)).map Int.ofNat

/-- Python `f"{z:02d}"`: zero-pad to width 2 (the sign counts toward the
width, matching CPython). -/
def pad2 (z : Int) : List Char :=
  if 0 ≤ z && z < 10 then '0' :: natToChars z.toNat else intToChars z

/-- Python `f"{z:03d}"` for `0 ≤ z < 1000` (the only range at which the
source applies it: `ms % 1000`). -/
def pad3 (z : Int) : List Char :=
  if 0 ≤ z && z < 10 then '0' :: '0' :: natToChars z.toNat
  else if 0 ≤ z && z < 100 then '0' :: natToChars z.toNat
  else intToChars z

/-! Model of `src/src/models/config.py` (the fields the core subsystem
reads). -/

/-- AlignmentConfig from `src/src/models/config.py`: `enabled` defaults to
true, `drift_threshold_ms` defaults to 200 and is validated to [50, 500]. -/
structure AlignmentConfig where
  enabled : Bool
  drift_threshold_ms : Int
deriving Repr, DecidableEq

/-! Model of `src/src/services/aligner.py`. -/

/-- Modelled from the spec: `SegmentTiming` is imported by
`src/src/services/aligner.py` from `src/src/services/stitcher.py`, but its
declaration is not present under `src/`.  It is the spec's ProvisionalSegment
(line id, start/end offsets into the stitched waveform); the aligner reads
exactly the fields `line_id`, `start_ms` and `end_ms`. -/
structure SegmentTiming where
  line_id : Int
  start_ms : Int
  end_ms : Int
deriving Repr, DecidableEq

/-- One transcribed word with timestamps, as produced by
`AlignmentService._extract_word_timings` from the external transcription. -/
structure WordTiming where
  word : String
  start_ms : Int
  end_ms : Int
deriving Repr, DecidableEq

/-- AlignedSegment from `src/src/services/aligner.py` (confidence is a
Python float, modelled as `ℚ`; it defaults to 1.0). -/
structure AlignedSegment where
  line_id : Int
  original_start_ms : Int
  original_end_ms : Int
  aligned_start_ms : Int
  aligned_end_ms : Int
  drift_ms : Int
  confidence : ℚ
  text : String
deriving Repr, DecidableEq

/-- AlignmentResult from `src/src/services/aligner.py`. -/
structure AlignmentResult where
  success : Bool
  segments : List AlignedSegment
  total_drift_ms : Int
  needs_review : Bool
  error : Option String
deriving Repr, DecidableEq

/-- Python `text.lower()`, character-wise. -/
def pyLower (s : String) : List Char := s.data.map Char.toLower

/-- `text.lower().split()` from `AlignmentService._match_segments`. -/
def textWords (s : String) : List (List Char) := pySplitWs (pyLower s)

/-- Placeholder word used with `List.getD` where the source indexes
`word_timings[i]` under a bounds guard (the guard makes it unreachable). -/
def defaultWord : WordTiming := ⟨"", 0, 0⟩

/-- Candidate window of `_match_segments` (lines 186-200): when word timings
remain, take the next `numWords` transcribed words (clipped to the end of the
transcript), derive the candidate boundaries, and advance the cursor; when the
transcript is exhausted, keep the provisional boundaries and the cursor.
Returns `(best_start_ms, best_end_ms, new_word_idx)`. -/
def candidateWindow (seg : SegmentTiming) (words : List WordTiming)
    (wordIdx numWords : Nat) : Int × Int × Nat :=
  if wordIdx < words.length then
    let endWordIdx := min (wordIdx + numWords) words.length - 1
    let bestStart :=
      if wordIdx < words.length then (words.getD wordIdx defaultWord).start_ms
      else seg.start_ms
    let bestEnd :=
      if endWordIdx < words.length then (words.getD endWordIdx defaultWord).end_ms
      else seg.end_ms
    (bestStart, bestEnd, endWordIdx + 1)
  else
    (seg.start_ms, seg.end_ms, wordIdx)

/-- Loop body of `AlignmentService._match_segments` for one provisional
segment: given the forward word cursor, produce the aligned segment and the
new cursor.  Mirrors `src/src/services/aligner.py` lines 169-219; Python `//`
is floor division, hence `Int.fdiv`. -/
def matchStep (cfg : AlignmentConfig) (seg : SegmentTiming) (text : String)
    (words : List WordTiming) (wordIdx : Nat) : AlignedSegment × Nat :=
  let numWords := (textWords text).length
  if numWords = 0 then
    (⟨seg.line_id, seg.start_ms, seg.end_ms, seg.start_ms, seg.end_ms, 0, 1, text⟩,
      wordIdx)
  else
    let st := candidateWindow seg words wordIdx numWords
    let startDrift := st.1 - seg.start_ms
    let endDrift := st.2.1 - seg.end_ms
    let avgDrift := Int.fdiv (startDrift + endDrift) 2
    let useAligned := cfg.drift_threshold_ms < |avgDrift|
    (⟨seg.line_id, seg.start_ms, seg.end_ms,
      if useAligned then st.1 else seg.start_ms,
      if useAligned then st.2.1 else seg.end_ms,
      avgDrift,
      if useAligned then (9 : ℚ) / 10 else 1,
      text⟩, st.2.2)

/-- `AlignmentService._match_segments`: fold `matchStep` over the provisional
segments, threading the single forward word cursor. -/
def matchSegments (cfg : AlignmentConfig) (segs : List SegmentTiming)
    (texts : Int → String) (words : List WordTiming) (wordIdx : Nat) :
    List AlignedSegment :=
  match segs with
  | [] => []
  | s :: rest =>
    let r := matchStep cfg s (texts s.line_id) words wordIdx
    r.1 :: matchSegments cfg rest texts words r.2

/-- Word-cursor value just before `_match_segments` processes segment `i`
(the cursor starts at `wordIdx` and is advanced by each preceding step). -/
def cursorAt (cfg : AlignmentConfig) (texts : Int → String)
    (words : List WordTiming) : List SegmentTiming → Nat → Nat → Nat
  | [], wordIdx, _ => wordIdx
  | s :: rest, wordIdx, i =>
    match i with
    | 0 => wordIdx
    | j + 1 =>
      cursorAt cfg texts words rest
        (matchStep cfg s (texts s.line_id) words wordIdx).2 j

/-- Segment echoed with its provisional timing, zero drift and default
confidence 1.0, as built in the disabled-mode and error branches of
`AlignmentService.align` (`texts.get(seg.line_id, "")` is the dict lookup). -/
def echoSegment (texts : Int → String) (seg : SegmentTiming) : AlignedSegment :=
  ⟨seg.line_id, seg.start_ms, seg.end_ms, seg.start_ms, seg.end_ms, 0, 1,
    texts seg.line_id⟩

/-- `AlignmentService.align`.  The external transcription step (lazy model
load plus `model.transcribe` plus `_extract_word_timings`) is passed as an
`Except`: `.error e` models any exception raised there, caught by the
`except` block of `align`; `.ok words` is the extracted word-timing list. -/
def align (cfg : AlignmentConfig) (transcription : Except String (List WordTiming))
    (segs : List SegmentTiming) (texts : Int → String) : AlignmentResult :=
  if cfg.enabled = false then
    ⟨true, segs.map (echoSegment texts), 0, false, none⟩
  else
    match transcription with
    | .error e => ⟨false, segs.map (echoSegment texts), 0, false, some e⟩
    | .ok words =>
      let alignedSegments := matchSegments cfg segs texts words 0
      let totalDrift := (alignedSegments.map (fun s => |s.drift_ms|)).sum
      let needsReview :=
        alignedSegments.any (fun s => decide (cfg.drift_threshold_ms < |s.drift_ms|))
      ⟨true, alignedSegments, totalDrift, needsReview, none⟩

/-! Model of `LessonPipeline._calculate_quality_score`
(`src/src/pipeline/lesson_pipeline.py` lines 215-227). -/

/-- Per-segment score term: `confidence * (1.0 - min(abs(drift_ms)/500.0, 0.5))`. -/
def segmentScore (s : AlignedSegment) : ℚ :=
  s.confidence * (1 - min ((s.drift_ms.natAbs : ℚ) / 500) (1 / 2))

/-- `LessonPipeline._calculate_quality_score`: 1.0 for no segments, else the
accumulated total divided by the segment count. -/
def calculateQualityScore (segments : List AlignedSegment) : ℚ :=
  if segments.isEmpty then 1
  else (segments.foldl (fun acc s => acc + segmentScore s) 0) / segments.length

/-! Model of `LessonPipeline._synthesize_with_retry` and the abort-before-
stitching check in `LessonPipeline.generate`
(`src/src/pipeline/lesson_pipeline.py` lines 123-126 and 196-213). -/

/-- One script line together with its external synthesis behaviour: `outcome
k` tells whether the k-th call of `tts_worker.synthesize_line` for this line
succeeds (the worker is the external synthesis service). -/
structure SynthesisLine where
  line_id : Int
  outcome : Nat → Bool

/-- The retry `for attempt in range(1, max_attempts)` loop: `calls` calls were
already made, the last one returning `result`; `remaining` loop iterations are
left.  Returns the final result and the total number of calls made. -/
def retryLoop (outcome : Nat → Bool) (result : Bool) (calls : Nat) :
    Nat → Bool × Nat
  | 0 => (result, calls)
  | n + 1 =>
    let r := outcome (calls + 1)
    if r then (r, calls + 1) else retryLoop outcome r (calls + 1) n

/-- Per-line body of `LessonPipeline._synthesize_with_retry`: one initial
call, then up to `maxAttempts - 1` retries, stopping at the first success.
Returns the final success flag and the total number of synthesis calls. -/
def synthesizeLineRetry (outcome : Nat → Bool) (maxAttempts : Nat) : Bool × Nat :=
  let r := outcome 1
  if r then (r, 1) else retryLoop outcome r 1 (maxAttempts - 1)

/-- `LessonPipeline._synthesize_with_retry` over all lines: the per-line
results in input order. -/
def synthesizeWithRetry (maxAttempts : Nat) (lines : List SynthesisLine) :
    List (Int × Bool) :=
  lines.map (fun l => (l.line_id, (synthesizeLineRetry l.outcome maxAttempts).1))

/-- Ids of the lines whose synthesis result is unsuccessful, in input order
(`failed_ids` in `LessonPipeline.generate`). -/
def failedLineIds (maxAttempts : Nat) (lines : List SynthesisLine) : List Int :=
  ((synthesizeWithRetry maxAttempts lines).filter (fun r => !r.2)).map (fun r => r.1)

/-- Steps 2-3 boundary of `LessonPipeline.generate`: after synthesis, if any
line failed, `PipelineError` is raised with the failed line ids (modelled as
`.error`), before the stitcher is ever invoked; otherwise the results proceed
to stitching. -/
def generateSynthesisPhase (maxAttempts : Nat) (lines : List SynthesisLine) :
    Except (List Int) (List (Int × Bool)) :=
  let results := synthesizeWithRetry maxAttempts lines
  let failed := results.filter (fun r => !r.2)
  if failed.isEmpty then .ok results else .error (failed.map (fun r => r.1))

/-! Model of `src/src/services/stitcher.py` and `src/src/utils/audio.py`.
A pydub `AudioSegment` is modelled as a list of per-millisecond sample
amplitudes (`ℚ`), so `len(audio)` is `List.length`. -/

/-- Audio buffer: one abstract amplitude per millisecond. -/
abbrev Audio := List ℚ

/-- Segment from `src/src/models/script.py` (`confidence` is a Python float,
default 1.0, modelled as `ℚ`). -/
structure Segment where
  id : Int
  speaker : String
  text : String
  start_ms : Int
  end_ms : Int
  audio_duration_ms : Int
  confidence : ℚ
deriving Repr, DecidableEq

/-- AudioSegmentInfo from `src/src/services/stitcher.py`. -/
structure AudioSegmentInfo where
  line_id : Int
  speaker : String
  text : String
  audio : Audio
  duration_ms : Int
deriving Repr, DecidableEq

/-- StitchResult from `src/src/services/stitcher.py`. -/
structure StitchResult where
  audio : Audio
  segments : List Segment
  total_duration_ms : Int
deriving Repr, DecidableEq

/-- Constructor parameters of `AudioStitcher` (defaults 300, 400, -16.0,
24000). -/
structure StitcherConfig where
  initial_silence_ms : Int
  default_pause_ms : Int
  normalize_dbfs : Option ℚ
  sample_rate : Int
deriving Repr, DecidableEq

/-- Modelled from the spec: `create_silence` is imported by the stitcher from
`src/src/utils/audio.py` but its definition is not present under `src/`; the
spec's Silence/Gap Generator "produces a zero-amplitude audio buffer of a
requested duration and sample rate" (a negative duration yields an empty
buffer). -/
def create_silence (duration_ms : Int) (_sample_rate : Int) : Audio :=
  List.replicate duration_ms.toNat 0

/-- `normalize_audio` from `src/src/utils/audio.py`: a single uniform gain
bringing the buffer to the target dBFS.  The loudness measurement and the
gain application are pydub floating-point operations (external collaborators);
they are passed in as `dBFS` and `applyGain`.  Gain application preserves the
sample count in pydub; nothing here depends on more than that. -/
def normalize_audio (dBFS : Audio → ℚ) (applyGain : ℚ → Audio → Audio)
    (segment : Audio) (target_dbfs : ℚ) : Audio :=
  applyGain (target_dbfs - dBFS segment) segment

/-- Pause used after segment `i` in `AudioStitcher.stitch`: `pauses[i]` when a
non-empty pause list was given and `i` is in range (Python truthiness makes an
empty list fall back), else the default pause. -/
def pauseFor (default_pause_ms : Int) (pauses : Option (List Int)) (i : Nat) : Int :=
  match pauses with
  | none => default_pause_ms
  | some ps => if !ps.isEmpty && decide (i < ps.length) then ps.getD i 0
               else default_pause_ms

/-- Main loop of `AudioStitcher.stitch` over the remaining segment infos:
`i` is the running index, `pos` the cursor `current_position_ms`, `combined`
the audio buffer built so far.  A pause is appended after every segment except
the last.  Returns the segment table, final cursor and final buffer. -/
def stitchLoop (cfg : StitcherConfig) (pauses : Option (List Int)) :
    List AudioSegmentInfo → Nat → Int → Audio → (List Segment × Int × Audio)
  | [], _, pos, combined => ([], pos, combined)
  | info :: rest, i, pos, combined =>
    let pause_ms := pauseFor cfg.default_pause_ms pauses i
    let start_ms := pos
    let end_ms := start_ms + info.duration_ms
    let seg : Segment :=
      ⟨info.line_id, info.speaker, info.text, start_ms, end_ms, info.duration_ms, 1⟩
    let combined1 := combined ++ info.audio
    let next :=
      if rest.isEmpty then (end_ms, combined1)
      else (end_ms + pause_ms, combined1 ++ create_silence pause_ms cfg.sample_rate)
    let r := stitchLoop cfg pauses rest (i + 1) next.1 next.2
    (seg :: r.1, r.2.1, r.2.2)

/-- `AudioStitcher.stitch`: initial silence, loop, optional normalization;
the total duration is the length of the final buffer. -/
def stitch (cfg : StitcherConfig) (dBFS : Audio → ℚ) (applyGain : ℚ → Audio → Audio)
    (audio_segments : List AudioSegmentInfo) (pauses : Option (List Int)) :
    StitchResult :=
  if audio_segments.isEmpty then ⟨[], [], 0⟩
  else
    let combined0 := create_silence cfg.initial_silence_ms cfg.sample_rate
    let r := stitchLoop cfg pauses audio_segments 0 cfg.initial_silence_ms combined0
    let combined :=
      match cfg.normalize_dbfs with
      | some t => normalize_audio dBFS applyGain r.2.2 t
      | none => r.2.2
    ⟨combined, r.1, (combined.length : Int)⟩

/-- Modelled from the spec: `detect_format` and `load_audio_bytes` are
imported by the stitcher from `src/src/utils/audio.py` but are not present
under `src/`; per the spec the container encoding is an opaque external
"samples to container bytes" service, so audio bytes are modelled as the
decoded sample buffer itself and loading is the identity. -/
def load_audio_bytes (audio_bytes : Audio) : Audio := audio_bytes

/-- `AudioStitcher.stitch_from_bytes`: decode each tuple
`(line_id, speaker, text, audio_bytes, pause_after_ms)`, set
`duration_ms = len(audio)`, collect pauses, and delegate to `stitch`. -/
def stitch_from_bytes (cfg : StitcherConfig) (dBFS : Audio → ℚ)
    (applyGain : ℚ → Audio → Audio)
    (audio_data : List (Int × String × String × Audio × Int)) : StitchResult :=
  let audio_segments := audio_data.map (fun t =>
    let audio := load_audio_bytes t.2.2.2.1
    (⟨t.1, t.2.1, t.2.2.1, audio, (audio.length : Int)⟩ : AudioSegmentInfo))
  let pauses := audio_data.map (fun t => t.2.2.2.2)
  stitch cfg dBFS applyGain audio_segments (some pauses)

/-- Modelled from the spec: `pydub.silence.detect_leading_silence` (external
collaborator of `trim_silence`): the length in milliseconds of the leading run
of audio lying below the silence threshold. -/
def detect_leading_silence (sound : Audio) (silence_threshold : ℚ) : Nat :=
  (sound.takeWhile (fun s => decide (s < silence_threshold))).length

/-- `trim_silence` from `src/src/utils/audio.py`: trim leading and trailing
near-silence but keep `keep_silence` milliseconds at each edge
(`max(0, x - keep)` is `Nat` subtraction; the Python slice
`segment[a : duration - b]` is `drop a` then `take (duration - b - a)`).
The `min_silence_len` parameter is accepted and unused, as in the source. -/
def trim_silence (segment : Audio) (silence_thresh : ℚ)
    (_min_silence_len : Nat) (keep_silence : Nat) : Audio :=
  let start_trim := detect_leading_silence segment silence_thresh - keep_silence
  let end_trim := detect_leading_silence segment.reverse silence_thresh - keep_silence
  let duration := segment.length
  (segment.drop start_trim).take (duration - end_trim - start_trim)

/-! Model of `src/src/utils/srt.py`. -/

/-- `format_timestamp`: `HH:MM:SS,mmm` with Python floor division and
modulo (`Int.ediv`/`Int.emod` agree with Python `//`/`%` for these positive
divisors). -/
def format_timestamp (ms : Int) : List Char :=
  let hours := ms / 3600000
  let minutes := (ms % 3600000) / 60000
  let seconds := (ms % 60000) / 1000
  let milliseconds := ms % 1000
  pad2 hours ++ ':' :: pad2 minutes ++ ':' :: pad2 seconds ++ ',' :: pad3 milliseconds

/-- The SRT arrow separator `" --> "`. -/
def arrowSep : List Char := [' ', '-', '-', '>', ' ']

/-- The timing line `f"{start} --> {end}"` of one SRT entry. -/
def timingLine (s : Segment) : List Char :=
  format_timestamp s.start_ms ++ arrowSep ++ format_timestamp s.end_ms

/-- The flat line list built by `generate_srt`: for the segment at 1-based
index `i`: index line, timing line, text, and an empty separator line. -/
def srtLines : List Segment → Nat → List (List Char)
  | [], _ => []
  | s :: rest, i =>
    natToChars i :: timingLine s :: s.text.data :: [] :: srtLines rest (i + 1)

/-- `generate_srt`: `"\n".join(lines)` over the lines of all entries,
enumerated from 1. -/
def generate_srt (segments : List Segment) : List Char :=
  joinChar '\n' (srtLines segments 1)

/-- One parsed SRT entry as returned by `parse_srt` (a Python dict with keys
`id`, `start_ms`, `end_ms`, `text`). -/
structure ParsedSeg where
  id : Int
  start_ms : Int
  end_ms : Int
  text : List Char
deriving Repr, DecidableEq

/-- `_parse_timestamp`: split at the comma, split the time part at colons,
convert the four fields with `int()` and recombine.  `none` models a raised
exception (wrong shape or invalid integer literal). -/
def parse_timestamp (timestamp : List Char) : Option Int :=
  match pySplitChar ',' timestamp with
  | [time_part, ms_part] =>
    match pySplitChar ':' time_part with
    | [h, m, s] =>
      match parseIntChars h, parseIntChars m, parseIntChars s, parseIntChars ms_part with
      | some hv, some mv, some sv, some msv =>
        some (hv * 3600000 + mv * 60000 + sv * 1000 + msv)
      | _, _, _, _ => none
    | _ => none
  | _ => none

/-- Per-block loop of `parse_srt`: blocks with fewer than three lines are
skipped (`continue`); a malformed index, timing line or timestamp raises
(`none` for the whole parse). -/
def parseBlocks : List (List Char) → Option (List ParsedSeg)
  | [] => some []
  | b :: rest =>
    match pySplitChar '\n' (pyStrip b) with
    | [] => parseBlocks rest
    | [_] => parseBlocks rest
    | [_, _] => parseBlocks rest
    | l0 :: l1 :: l2 :: lrest =>
      match parseIntChars l0 with
      | none => none
      | some idx =>
        match pySplitArrow l1 with
        | [start_str, end_str] =>
          match parse_timestamp start_str, parse_timestamp end_str with
          | some start_ms, some end_ms =>
            match parseBlocks rest with
            | some tail =>
              some (⟨idx, start_ms, end_ms, joinChar '\n' (l2 :: lrest)⟩ :: tail)
            | none => none
          | _, _ => none
        | _ => none

/-- `parse_srt`: strip the content, split it into blank-line-separated
blocks, and parse each block. -/
def parse_srt (content : List Char) : Option (List ParsedSeg) :=
  parseBlocks (pySplitBlank (pyStrip content))

/-- Entries that a faithful round trip of `generate_srt` must reproduce:
1-based sequential index and the segment's own timing and text. -/
def expectedParsed : List Segment → Nat → List ParsedSeg
  | [], _ => []
  | s :: rest, i =>
    ⟨(i : Int), s.start_ms, s.end_ms, s.text.data⟩ :: expectedParsed rest (i + 1)

/-! Character-class helpers used to state when the SRT round trip is
faithful. -/

/-- Does the string start with a non-whitespace character (in particular, is
it non-empty). -/
def firstNonWs : List Char → Bool
  | [] => false
  | c :: _ => !isPyWs c

/-- Does the string start with a newline. -/
def firstIsNl : List Char → Bool
  | [] => false
  | c :: _ => decide (c = '\n')

/-- Does the string end with a newline. -/
def lastIsNl (l : List Char) : Bool := firstIsNl l.reverse

/-- Does the string contain two consecutive newlines (an embedded blank
line, the SRT block separator). -/
def hasNN : List Char → Bool
  | [] => false
  | [_] => false
  | c1 :: c2 :: rest =>
    (decide (c1 = '\n') && decide (c2 = '\n')) || hasNN (c2 :: rest)

/-- Does the string contain no newline at all. -/
def noNl (l : List Char) : Bool := l.all (fun c => !decide (c = '\n'))

/-- Texts for which the SRT block format is faithful: first and last
characters are non-whitespace (so the text is non-empty and block stripping
preserves it) and no embedded blank line (so block splitting preserves it). -/
def goodText (t : List Char) : Bool :=
  firstNonWs t && firstNonWs t.reverse && !hasNN t

/-- The SRT block of one segment at 1-based index `i`: index line, timing
line and text. -/
def blockOf (s : Segment) (i : Nat) : List Char :=
  natToChars i ++ '\n' :: (timingLine s ++ '\n' :: s.text.data)

/-- The blocks of all segments, enumerated from `i`. -/
def blockList : List Segment → Nat → List (List Char)
  | [], _ => []
  | s :: rest, i => blockOf s i :: blockList rest (i + 1)

/-- Join blocks with blank-line separators. -/
def joinNN : List (List Char) → List Char
  | [] => []
  | [x] => x
  | x :: y :: rest => x ++ '\n' :: '\n' :: joinNN (y :: rest)

/-- Total audio appended by the stitch loop for the remaining lines starting
at index `i`: each line's audio followed by its silence gap, except after the
last line. -/
def audioSpan (cfg : StitcherConfig) (pauses : Option (List Int)) :
    List AudioSegmentInfo → Nat → Nat
  | [], _ => 0
  | [info], _ => info.audio.length
  | info :: rest1 :: rest2, i =>
    info.audio.length + (pauseFor cfg.default_pause_ms pauses i).toNat +
      audioSpan cfg pauses (rest1 :: rest2) (i + 1)

/-! Shared default values for `List.getD`-style indexing in statements. -/

/-- Default `SegmentTiming` for out-of-range `getD` (never reached under the
stated bounds). -/
def dfltTiming : SegmentTiming := ⟨0, 0, 0⟩

/-- Default `AlignedSegment` for out-of-range `getD`. -/
def dfltAligned : AlignedSegment := ⟨0, 0, 0, 0, 0, 0, 1, ""⟩

/-- Default `Segment` for out-of-range `getD`. -/
def dfltSeg : Segment := ⟨0, "", "", 0, 0, 0, 1⟩

/-- Default `AudioSegmentInfo` for out-of-range `getD`. -/
def dfltInfo : AudioSegmentInfo := ⟨0, "", "", [], 0⟩

/-! General list helpers. -/

theorem getD_map_of_lt {α β : Type} (l : List α) (f : α → β) (i : Nat)
    (d : β) (d2 : α) (h : i < l.length) :
    (l.map f).getD i d = f (l.getD i d2) := by
  induction l generalizing i with
  | nil => simp at h
  | cons x xs ih =>
    cases i with
    | zero => simp
    | succ j =>
      simp only [List.map_cons, List.getD_cons_succ]
      exact ih j (by simpa using h)

theorem getD_mem {α : Type} (l : List α) (i : Nat) (d : α) (h : i < l.length) :
    l.getD i d ∈ l := by
  induction l generalizing i with
  | nil => simp at h
  | cons x xs ih =>
    cases i with
    | zero => simp
    | succ j =>
      simp only [List.getD_cons_succ]
      exact List.mem_cons_of_mem _ (ih j (by simpa using h))

/-! Lemmas about the aligner. -/

theorem matchSegments_length (cfg : AlignmentConfig) (segs : List SegmentTiming)
    (texts : Int → String) (words : List WordTiming) (idx : Nat) :
    (matchSegments cfg segs texts words idx).length = segs.length := by
  induction segs generalizing idx with
  | nil => rfl
  | cons s rest ih => simp [matchSegments, ih]

theorem matchSegments_getD (cfg : AlignmentConfig) (texts : Int → String)
    (words : List WordTiming) (segs : List SegmentTiming) (idx : Nat) (i : Nat)
    (h : i < segs.length) :
    (matchSegments cfg segs texts words idx).getD i dfltAligned =
      (matchStep cfg (segs.getD i dfltTiming)
        (texts ((segs.getD i dfltTiming).line_id)) words
        (cursorAt cfg texts words segs idx i)).1 := by
  induction segs generalizing idx i with
  | nil => simp at h
  | cons s rest ih =>
    cases i with
    | zero => simp [matchSegments, cursorAt]
    | succ j =>
      simp only [matchSegments, List.getD_cons_succ, cursorAt]
      exact ih _ j (by simpa using h)

theorem mem_matchSegments (cfg : AlignmentConfig) (texts : Int → String)
    (words : List WordTiming) (segs : List SegmentTiming) (idx : Nat)
    (a : AlignedSegment) (h : a ∈ matchSegments cfg segs texts words idx) :
    ∃ s j, a = (matchStep cfg s (texts s.line_id) words j).1 := by
  induction segs generalizing idx with
  | nil => simp [matchSegments] at h
  | cons s rest ih =>
    simp only [matchSegments, List.mem_cons] at h
    cases h with
    | inl h => exact ⟨s, idx, h⟩
    | inr h => exact ih _ h

/-- Per-branch invariants of one `matchStep`: the confidence is either 0.9 or
1.0; confidence 1.0 keeps the provisional boundaries; for a non-negative
threshold, confidence is 0.9 exactly when the recorded drift exceeds the
threshold; the original fields always copy the provisional segment. -/
theorem matchStep_invariants (cfg : AlignmentConfig) (s : SegmentTiming)
    (text : String) (words : List WordTiming) (j : Nat)
    (hth : 0 ≤ cfg.drift_threshold_ms) :
    ((matchStep cfg s text words j).1.confidence = 9 / 10 ∨
      (matchStep cfg s text words j).1.confidence = 1) ∧
    ((matchStep cfg s text words j).1.confidence = 1 →
      (matchStep cfg s text words j).1.aligned_start_ms =
        (matchStep cfg s text words j).1.original_start_ms ∧
      (matchStep cfg s text words j).1.aligned_end_ms =
        (matchStep cfg s text words j).1.original_end_ms) ∧
    (cfg.drift_threshold_ms < |(matchStep cfg s text words j).1.drift_ms| ↔
      (matchStep cfg s text words j).1.confidence = 9 / 10) := by
  by_cases h0 : (textWords text).length = 0
  · have he : matchStep cfg s text words j =
        (⟨s.line_id, s.start_ms, s.end_ms, s.start_ms, s.end_ms, 0, 1, text⟩, j) := by
      unfold matchStep
      rw [if_pos h0]
    rw [he]
    dsimp only
    refine ⟨Or.inr rfl, fun _ => ⟨rfl, rfl⟩, ?_, ?_⟩
    · intro hlt
      simp only [abs_zero] at hlt
      omega
    · intro hc
      norm_num at hc
  · simp only [matchStep, if_neg h0]
    split_ifs
    all_goals first
    | exact ⟨Or.inl rfl, fun hc => absurd hc (by norm_num),
        fun _ => rfl, fun _ => ‹_›⟩
    | exact ⟨Or.inr rfl, fun _ => ⟨rfl, rfl⟩,
        fun hlt => absurd hlt ‹_›, fun hc => absurd hc (by norm_num)⟩

/-- Claim C4: when alignment is disabled in configuration, `align` is the
identity transform for any input: it returns `success = true` and, for every
input provisional segment in order, an `AlignedSegment` whose aligned
start/end equal the provisional start/end, with `drift_ms` 0 and confidence
1.0. -/
theorem align_disabled_identity (cfg : AlignmentConfig)
    (tr : Except String (List WordTiming)) (segs : List SegmentTiming)
    (texts : Int → String) (hdis : cfg.enabled = false) :
    (align cfg tr segs texts).success = true ∧
    (align cfg tr segs texts).segments.length = segs.length ∧
    ∀ i, i < segs.length →
      ((align cfg tr segs texts).segments.getD i dfltAligned).line_id =
          (segs.getD i dfltTiming).line_id ∧
      ((align cfg tr segs texts).segments.getD i dfltAligned).aligned_start_ms =
          (segs.getD i dfltTiming).start_ms ∧
      ((align cfg tr segs texts).segments.getD i dfltAligned).aligned_end_ms =
          (segs.getD i dfltTiming).end_ms ∧
      ((align cfg tr segs texts).segments.getD i dfltAligned).drift_ms = 0 ∧
      ((align cfg tr segs texts).segments.getD i dfltAligned).confidence = 1 := by
  have he : align cfg tr segs texts =
      ⟨true, segs.map (echoSegment texts), 0, false, none⟩ := by
    unfold align
    rw [if_pos hdis]
  rw [he]
  dsimp only
  refine ⟨rfl, by simp, ?_⟩
  intro i hi
  rw [getD_map_of_lt segs (echoSegment texts) i dfltAligned dfltTiming hi]
  exact ⟨rfl, rfl, rfl, rfl, rfl⟩

/-- Witness for C4 at a concrete disabled configuration and one segment. -/
theorem align_disabled_identity_witness :
    ((⟨false, 200⟩ : AlignmentConfig).enabled = false) ∧
    ((align ⟨false, 200⟩ (Except.ok []) [⟨7, 100, 900⟩] (fun _ => "hi")).success = true ∧
     (align ⟨false, 200⟩ (Except.ok []) [⟨7, 100, 900⟩] (fun _ => "hi")).segments.length =
        [(⟨7, 100, 900⟩ : SegmentTiming)].length ∧
     ∀ i, i < [(⟨7, 100, 900⟩ : SegmentTiming)].length →
      ((align ⟨false, 200⟩ (Except.ok []) [⟨7, 100, 900⟩] (fun _ => "hi")).segments.getD
          i dfltAligned).line_id =
        ([(⟨7, 100, 900⟩ : SegmentTiming)].getD i dfltTiming).line_id ∧
      ((align ⟨false, 200⟩ (Except.ok []) [⟨7, 100, 900⟩] (fun _ => "hi")).segments.getD
          i dfltAligned).aligned_start_ms =
        ([(⟨7, 100, 900⟩ : SegmentTiming)].getD i dfltTiming).start_ms ∧
      ((align ⟨false, 200⟩ (Except.ok []) [⟨7, 100, 900⟩] (fun _ => "hi")).segments.getD
          i dfltAligned).aligned_end_ms =
        ([(⟨7, 100, 900⟩ : SegmentTiming)].getD i dfltTiming).end_ms ∧
      ((align ⟨false, 200⟩ (Except.ok []) [⟨7, 100, 900⟩] (fun _ => "hi")).segments.getD
          i dfltAligned).drift_ms = 0 ∧
      ((align ⟨false, 200⟩ (Except.ok []) [⟨7, 100, 900⟩] (fun _ => "hi")).segments.getD
          i dfltAligned).confidence = 1) :=
  ⟨rfl, align_disabled_identity ⟨false, 200⟩ (Except.ok []) [⟨7, 100, 900⟩]
    (fun _ => "hi") rfl⟩

/-- Claim C3: if the transcription step raises any exception during
enabled-mode alignment, `align` does not propagate it: the result has
`success = false`, a non-null error message, and one output segment per input
segment in order whose aligned start/end equal the provisional start/end and
whose `drift_ms` is 0. -/
theorem align_transcription_failure (cfg : AlignmentConfig) (e : String)
    (segs : List SegmentTiming) (texts : Int → String)
    (hen : cfg.enabled = true) :
    (align cfg (Except.error e) segs texts).success = false ∧
    (align cfg (Except.error e) segs texts).error = some e ∧
    (align cfg (Except.error e) segs texts).error ≠ none ∧
    (align cfg (Except.error e) segs texts).segments.length = segs.length ∧
    ∀ i, i < segs.length →
      ((align cfg (Except.error e) segs texts).segments.getD i dfltAligned).line_id =
          (segs.getD i dfltTiming).line_id ∧
      ((align cfg (Except.error e) segs texts).segments.getD i dfltAligned).aligned_start_ms =
          (segs.getD i dfltTiming).start_ms ∧
      ((align cfg (Except.error e) segs texts).segments.getD i dfltAligned).aligned_end_ms =
          (segs.getD i dfltTiming).end_ms ∧
      ((align cfg (Except.error e) segs texts).segments.getD i dfltAligned).drift_ms = 0 := by
  have he : align cfg (Except.error e) segs texts =
      ⟨false, segs.map (echoSegment texts), 0, false, some e⟩ := by
    unfold align
    rw [if_neg (by simp [hen])]
  rw [he]
  dsimp only
  refine ⟨rfl, rfl, by simp, by simp, ?_⟩
  intro i hi
  rw [getD_map_of_lt segs (echoSegment texts) i dfltAligned dfltTiming hi]
  exact ⟨rfl, rfl, rfl, rfl⟩

/-- Witness for C3 at a concrete enabled configuration, a concrete error and
one segment. -/
theorem align_transcription_failure_witness :
    ((⟨true, 200⟩ : AlignmentConfig).enabled = true) ∧
    ((align ⟨true, 200⟩ (Except.error "boom") [⟨7, 100, 900⟩] (fun _ => "hi")).success = false ∧
     (align ⟨true, 200⟩ (Except.error "boom") [⟨7, 100, 900⟩] (fun _ => "hi")).error = some "boom" ∧
     (align ⟨true, 200⟩ (Except.error "boom") [⟨7, 100, 900⟩] (fun _ => "hi")).error ≠ none ∧
     (align ⟨true, 200⟩ (Except.error "boom") [⟨7, 100, 900⟩] (fun _ => "hi")).segments.length =
        [(⟨7, 100, 900⟩ : SegmentTiming)].length ∧
     ∀ i, i < [(⟨7, 100, 900⟩ : SegmentTiming)].length →
      ((align ⟨true, 200⟩ (Except.error "boom") [⟨7, 100, 900⟩] (fun _ => "hi")).segments.getD
          i dfltAligned).line_id =
        ([(⟨7, 100, 900⟩ : SegmentTiming)].getD i dfltTiming).line_id ∧
      ((align ⟨true, 200⟩ (Except.error "boom") [⟨7, 100, 900⟩] (fun _ => "hi")).segments.getD
          i dfltAligned).aligned_start_ms =
        ([(⟨7, 100, 900⟩ : SegmentTiming)].getD i dfltTiming).start_ms ∧
      ((align ⟨true, 200⟩ (Except.error "boom") [⟨7, 100, 900⟩] (fun _ => "hi")).segments.getD
          i dfltAligned).aligned_end_ms =
        ([(⟨7, 100, 900⟩ : SegmentTiming)].getD i dfltTiming).end_ms ∧
      ((align ⟨true, 200⟩ (Except.error "boom") [⟨7, 100, 900⟩] (fun _ => "hi")).segments.getD
          i dfltAligned).drift_ms = 0) :=
  ⟨rfl, align_transcription_failure ⟨true, 200⟩ "boom" [⟨7, 100, 900⟩]
    (fun _ => "hi") rfl⟩

/-- Claim C1: for every provisional segment processed in enabled-mode
alignment whose expected text is non-empty and for which transcription words
are available, the drift is the floor average of the two boundary deltas
`((candidate_start - provisional_start) + (candidate_end - provisional_end)) / 2`,
and the decision is a strict threshold: if `abs(drift) > drift_threshold_ms`
the candidate timing is adopted with confidence 0.9; otherwise (including
drift exactly at the threshold) the provisional timing is kept with
confidence 1.0 — never a partial or blended correction. -/
theorem drift_threshold_decision (cfg : AlignmentConfig)
    (words : List WordTiming) (segs : List SegmentTiming) (texts : Int → String)
    (i : Nat) (seg : SegmentTiming) (idx : Nat) (cs ce d : Int)
    (a : AlignedSegment)
    (hen : cfg.enabled = true) (hi : i < segs.length)
    (hseg : seg = segs.getD i dfltTiming)
    (hidx : idx = cursorAt cfg texts words segs 0 i)
    (hne : textWords (texts seg.line_id) ≠ [])
    (hcur : idx < words.length)
    (hcs : cs = (words.getD idx defaultWord).start_ms)
    (hce : ce = (words.getD (min (idx + (textWords (texts seg.line_id)).length)
        words.length - 1) defaultWord).end_ms)
    (hd : d = Int.fdiv ((cs - seg.start_ms) + (ce - seg.end_ms)) 2)
    (ha : a = (align cfg (Except.ok words) segs texts).segments.getD i dfltAligned) :
    a.drift_ms = d ∧
    (cfg.drift_threshold_ms < |d| →
      a.aligned_start_ms = cs ∧ a.aligned_end_ms = ce ∧ a.confidence = 9 / 10) ∧
    (|d| ≤ cfg.drift_threshold_ms →
      a.aligned_start_ms = seg.start_ms ∧ a.aligned_end_ms = seg.end_ms ∧
        a.confidence = 1) := by
  subst hseg hidx hcs hce hd ha
  have hal : (align cfg (Except.ok words) segs texts).segments =
      matchSegments cfg segs texts words 0 := by
    unfold align
    rw [if_neg (by simp [hen])]
  rw [hal, matchSegments_getD cfg texts words segs 0 i hi]
  have h0 : ¬ (textWords (texts ((segs.getD i dfltTiming).line_id))).length = 0 := by
    simpa [List.length_eq_zero] using hne
  have hpos : 0 < words.length := Nat.lt_of_le_of_lt (Nat.zero_le _) hcur
  have hend : min (cursorAt cfg texts words segs 0 i +
      (textWords (texts ((segs.getD i dfltTiming).line_id))).length) words.length - 1 <
      words.length := by omega
  have hcw : candidateWindow (segs.getD i dfltTiming) words
      (cursorAt cfg texts words segs 0 i)
      (textWords (texts ((segs.getD i dfltTiming).line_id))).length =
      ((words.getD (cursorAt cfg texts words segs 0 i) defaultWord).start_ms,
       (words.getD (min (cursorAt cfg texts words segs 0 i +
          (textWords (texts ((segs.getD i dfltTiming).line_id))).length)
          words.length - 1) defaultWord).end_ms,
       min (cursorAt cfg texts words segs 0 i +
          (textWords (texts ((segs.getD i dfltTiming).line_id))).length)
          words.length - 1 + 1) := by
    unfold candidateWindow
    simp only [if_pos hcur, if_pos hend]
  simp only [matchStep, if_neg h0, hcw]
  exact ⟨by trivial,
    fun hgt => ⟨if_pos hgt, if_pos hgt, if_pos hgt⟩,
    fun hle => ⟨if_neg (not_lt.mpr hle), if_neg (not_lt.mpr hle),
      if_neg (not_lt.mpr hle)⟩⟩

/-- Witness for C1: threshold 200, provisional [1000, 2000], candidate
[1201, 2201], drift 201 just above the threshold, so the candidate is
adopted with confidence 0.9. -/
theorem drift_threshold_decision_witness :
    ((align ⟨true, 200⟩ (Except.ok [⟨"hi", 1201, 2201⟩]) [⟨1, 1000, 2000⟩]
        (fun _ => "hi")).segments.getD 0 dfltAligned).drift_ms = 201 ∧
    ((200 : Int) < |(201 : Int)| →
      ((align ⟨true, 200⟩ (Except.ok [⟨"hi", 1201, 2201⟩]) [⟨1, 1000, 2000⟩]
          (fun _ => "hi")).segments.getD 0 dfltAligned).aligned_start_ms = 1201 ∧
      ((align ⟨true, 200⟩ (Except.ok [⟨"hi", 1201, 2201⟩]) [⟨1, 1000, 2000⟩]
          (fun _ => "hi")).segments.getD 0 dfltAligned).aligned_end_ms = 2201 ∧
      ((align ⟨true, 200⟩ (Except.ok [⟨"hi", 1201, 2201⟩]) [⟨1, 1000, 2000⟩]
          (fun _ => "hi")).segments.getD 0 dfltAligned).confidence = 9 / 10) ∧
    (|(201 : Int)| ≤ 200 →
      ((align ⟨true, 200⟩ (Except.ok [⟨"hi", 1201, 2201⟩]) [⟨1, 1000, 2000⟩]
          (fun _ => "hi")).segments.getD 0 dfltAligned).aligned_start_ms = 1000 ∧
      ((align ⟨true, 200⟩ (Except.ok [⟨"hi", 1201, 2201⟩]) [⟨1, 1000, 2000⟩]
          (fun _ => "hi")).segments.getD 0 dfltAligned).aligned_end_ms = 2000 ∧
      ((align ⟨true, 200⟩ (Except.ok [⟨"hi", 1201, 2201⟩]) [⟨1, 1000, 2000⟩]
          (fun _ => "hi")).segments.getD 0 dfltAligned).confidence = 1) :=
  drift_threshold_decision ⟨true, 200⟩ [⟨"hi", 1201, 2201⟩] [⟨1, 1000, 2000⟩]
    (fun _ => "hi") 0 ⟨1, 1000, 2000⟩ 0 1201 2201 201
    ((align ⟨true, 200⟩ (Except.ok [⟨"hi", 1201, 2201⟩]) [⟨1, 1000, 2000⟩]
        (fun _ => "hi")).segments.getD 0 dfltAligned)
    rfl (by decide) (by decide) (by decide) (by decide) (by decide)
    (by decide) (by decide) (by decide) rfl

/-- Claim C10: in every successful enabled-mode alignment result, each
segment's confidence is exactly 0.9 or exactly 1.0; confidence 1.0 implies
the aligned boundaries equal the original boundaries; a segment has
confidence 0.9 exactly when its absolute drift strictly exceeds the
threshold; and `needs_review` is true iff at least one segment's absolute
drift strictly exceeds the threshold. -/
theorem alignment_confidence_invariants (cfg : AlignmentConfig)
    (words : List WordTiming) (segs : List SegmentTiming) (texts : Int → String)
    (hen : cfg.enabled = true) (hth : 0 ≤ cfg.drift_threshold_ms) :
    (align cfg (Except.ok words) segs texts).success = true ∧
    (∀ a ∈ (align cfg (Except.ok words) segs texts).segments,
      a.confidence = 9 / 10 ∨ a.confidence = 1) ∧
    (∀ a ∈ (align cfg (Except.ok words) segs texts).segments,
      a.confidence = 1 → a.aligned_start_ms = a.original_start_ms ∧
        a.aligned_end_ms = a.original_end_ms) ∧
    (∀ a ∈ (align cfg (Except.ok words) segs texts).segments,
      cfg.drift_threshold_ms < |a.drift_ms| ↔ a.confidence = 9 / 10) ∧
    ((align cfg (Except.ok words) segs texts).needs_review = true ↔
      ∃ a ∈ (align cfg (Except.ok words) segs texts).segments,
        cfg.drift_threshold_ms < |a.drift_ms|) := by
  have hal : align cfg (Except.ok words) segs texts =
      ⟨true, matchSegments cfg segs texts words 0,
        ((matchSegments cfg segs texts words 0).map (fun s => |s.drift_ms|)).sum,
        (matchSegments cfg segs texts words 0).any
          (fun s => decide (cfg.drift_threshold_ms < |s.drift_ms|)), none⟩ := by
    unfold align
    rw [if_neg (by simp [hen])]
  rw [hal]
  dsimp only
  refine ⟨rfl, ?_, ?_, ?_, ?_⟩
  · intro a ha
    obtain ⟨s, j, rfl⟩ := mem_matchSegments cfg texts words segs 0 a ha
    exact (matchStep_invariants cfg s (texts s.line_id) words j hth).1
  · intro a ha
    obtain ⟨s, j, rfl⟩ := mem_matchSegments cfg texts words segs 0 a ha
    exact (matchStep_invariants cfg s (texts s.line_id) words j hth).2.1
  · intro a ha
    obtain ⟨s, j, rfl⟩ := mem_matchSegments cfg texts words segs 0 a ha
    exact (matchStep_invariants cfg s (texts s.line_id) words j hth).2.2
  · simp only [List.any_eq_true, decide_eq_true_eq]

/-- Witness for C10 at a concrete enabled run with one drifted segment. -/
theorem alignment_confidence_invariants_witness :
    ((⟨true, 200⟩ : AlignmentConfig).enabled = true ∧ (0 : Int) ≤ 200) ∧
    ((align ⟨true, 200⟩ (Except.ok [⟨"hi", 1201, 2201⟩]) [⟨1, 1000, 2000⟩]
        (fun _ => "hi")).success = true ∧
     (∀ a ∈ (align ⟨true, 200⟩ (Except.ok [⟨"hi", 1201, 2201⟩]) [⟨1, 1000, 2000⟩]
        (fun _ => "hi")).segments, a.confidence = 9 / 10 ∨ a.confidence = 1) ∧
     (∀ a ∈ (align ⟨true, 200⟩ (Except.ok [⟨"hi", 1201, 2201⟩]) [⟨1, 1000, 2000⟩]
        (fun _ => "hi")).segments, a.confidence = 1 →
          a.aligned_start_ms = a.original_start_ms ∧
          a.aligned_end_ms = a.original_end_ms) ∧
     (∀ a ∈ (align ⟨true, 200⟩ (Except.ok [⟨"hi", 1201, 2201⟩]) [⟨1, 1000, 2000⟩]
        (fun _ => "hi")).segments,
          (200 : Int) < |a.drift_ms| ↔ a.confidence = 9 / 10) ∧
     ((align ⟨true, 200⟩ (Except.ok [⟨"hi", 1201, 2201⟩]) [⟨1, 1000, 2000⟩]
        (fun _ => "hi")).needs_review = true ↔
      ∃ a ∈ (align ⟨true, 200⟩ (Except.ok [⟨"hi", 1201, 2201⟩]) [⟨1, 1000, 2000⟩]
        (fun _ => "hi")).segments, (200 : Int) < |a.drift_ms|)) :=
  ⟨⟨rfl, by decide⟩, alignment_confidence_invariants ⟨true, 200⟩
    [⟨"hi", 1201, 2201⟩] [⟨1, 1000, 2000⟩] (fun _ => "hi") rfl (by decide)⟩

/-! Lemmas about the retry loop. -/

theorem retryLoop_calls_le (outcome : Nat → Bool) (r : Bool) (calls n : Nat) :
    (retryLoop outcome r calls n).2 ≤ calls + n := by
  induction n generalizing r calls with
  | zero => simp [retryLoop]
  | succ m ih =>
    unfold retryLoop
    by_cases h : outcome (calls + 1) = true
    · rw [if_pos h]
      dsimp only
      omega
    · rw [if_neg (by simpa using h)]
      have := ih (outcome (calls + 1)) (calls + 1)
      omega

theorem retryLoop_all_fail (outcome : Nat → Bool) (calls n : Nat)
    (h : ∀ j, calls + 1 ≤ j → j ≤ calls + n → outcome j = false) :
    retryLoop outcome false calls n = (false, calls + n) := by
  induction n generalizing calls with
  | zero => simp [retryLoop]
  | succ m ih =>
    unfold retryLoop
    have hf : outcome (calls + 1) = false := h (calls + 1) (by omega) (by omega)
    rw [if_neg (by simp [hf])]
    rw [hf]
    have := ih (calls + 1) (fun j h1 h2 => h j (by omega) (by omega))
    rw [this]
    congr 1
    omega

theorem retryLoop_first_success (outcome : Nat → Bool) (r : Bool)
    (calls n k : Nat) (h1 : calls < k) (h2 : k ≤ calls + n)
    (hk : outcome k = true) (hmin : ∀ j, calls < j → j < k → outcome j = false) :
    retryLoop outcome r calls n = (true, k) := by
  induction n generalizing r calls with
  | zero => omega
  | succ m ih =>
    unfold retryLoop
    by_cases he : k = calls + 1
    · subst he
      rw [if_pos (by simpa using hk)]
      rw [hk]
    · have hf : outcome (calls + 1) = false :=
        hmin (calls + 1) (by omega) (by omega)
      rw [if_neg (by simp [hf])]
      exact ih (outcome (calls + 1)) (calls + 1) (by omega) (by omega)
        (fun j ha hb => hmin j (by omega) hb)

/-- All `maxAttempts` tries failing yields a failed result after exactly
`maxAttempts` calls. -/
theorem synthesizeLineRetry_all_fail (outcome : Nat → Bool) (m : Nat)
    (hm : 1 ≤ m) (h : ∀ k, 1 ≤ k → k ≤ m → outcome k = false) :
    synthesizeLineRetry outcome m = (false, m) := by
  unfold synthesizeLineRetry
  have h1 : outcome 1 = false := h 1 (by omega) hm
  rw [if_neg (by simp [h1])]
  rw [h1]
  have := retryLoop_all_fail outcome 1 (m - 1)
    (fun j ha hb => h j (by omega) (by omega))
  rw [this]
  congr 1
  omega

/-- Claim C5: for every line, synthesis is attempted at most `max_attempts`
times in total (one initial call plus up to `max_attempts - 1` retries),
stopping immediately at the first successful attempt; a first success at
attempt `k` means exactly `k` calls and a successful result; if every attempt
fails the result is failed after exactly `max_attempts` calls; and when some
line fails all attempts, the synthesis phase of `generate` aborts before
stitching with exactly the list of all failed line ids. -/
theorem retry_attempt_semantics (m : Nat) (outcome : Nat → Bool)
    (lines : List SynthesisLine) (hm : 1 ≤ m) :
    (synthesizeLineRetry outcome m).2 ≤ m ∧
    (∀ k, 1 ≤ k → k ≤ m → outcome k = true →
      (∀ j, 1 ≤ j → j < k → outcome j = false) →
      synthesizeLineRetry outcome m = (true, k)) ∧
    ((∀ k, 1 ≤ k → k ≤ m → outcome k = false) →
      synthesizeLineRetry outcome m = (false, m)) ∧
    ((∃ l ∈ lines, ∀ k, 1 ≤ k → k ≤ m → l.outcome k = false) →
      generateSynthesisPhase m lines = .error (failedLineIds m lines) ∧
      failedLineIds m lines ≠ []) := by
  refine ⟨?_, ?_, ?_, ?_⟩
  · unfold synthesizeLineRetry
    by_cases h : outcome 1 = true
    · rw [if_pos h]
      dsimp only
      exact hm
    · rw [if_neg (by simpa using h)]
      have := retryLoop_calls_le outcome (outcome 1) 1 (m - 1)
      omega
  · intro k hk1 hkm hk hmin
    unfold synthesizeLineRetry
    by_cases he : k = 1
    · subst he
      rw [if_pos (by simpa using hk)]
      rw [hk]
    · have h1 : outcome 1 = false := hmin 1 (by omega) (by omega)
      rw [if_neg (by simp [h1])]
      exact retryLoop_first_success outcome (outcome 1) 1 (m - 1) k (by omega)
        (by omega) hk (fun j ha hb => hmin j (by omega) hb)
  · intro h
    exact synthesizeLineRetry_all_fail outcome m hm h
  · intro ⟨l, hl, hfail⟩
    have hlf : (synthesizeLineRetry l.outcome m).1 = false := by
      rw [synthesizeLineRetry_all_fail l.outcome m hm hfail]
    have hmem : (l.line_id, false) ∈
        (synthesizeWithRetry m lines).filter (fun r => !r.2) := by
      rw [List.mem_filter]
      constructor
      · unfold synthesizeWithRetry
        rw [List.mem_map]
        exact ⟨l, hl, by rw [hlf]⟩
      · rfl
    have hne : (synthesizeWithRetry m lines).filter (fun r => !r.2) ≠ [] :=
      List.ne_nil_of_mem hmem
    constructor
    · unfold generateSynthesisPhase failedLineIds
      rw [if_neg (by simpa [List.isEmpty_iff] using hne)]
    · unfold failedLineIds
      simp only [ne_eq, List.map_eq_nil_iff]
      exact hne

/-- Witness for C5: three attempts allowed, success at the second attempt for
one line, and a line that always fails aborting the phase. -/
theorem retry_attempt_semantics_witness :
    (1 ≤ 3) ∧
    ((synthesizeLineRetry (fun k => decide (k = 2)) 3).2 ≤ 3 ∧
     (∀ k, 1 ≤ k → k ≤ 3 → (fun k => decide (k = 2)) k = true →
       (∀ j, 1 ≤ j → j < k → (fun k => decide (k = 2)) j = false) →
       synthesizeLineRetry (fun k => decide (k = 2)) 3 = (true, k)) ∧
     ((∀ k, 1 ≤ k → k ≤ 3 → (fun k => decide (k = 2)) k = false) →
       synthesizeLineRetry (fun k => decide (k = 2)) 3 = (false, 3)) ∧
     ((∃ l ∈ [(⟨5, fun _ => false⟩ : SynthesisLine)],
         ∀ k, 1 ≤ k → k ≤ 3 → l.outcome k = false) →
       generateSynthesisPhase 3 [(⟨5, fun _ => false⟩ : SynthesisLine)] =
         .error (failedLineIds 3 [(⟨5, fun _ => false⟩ : SynthesisLine)]) ∧
       failedLineIds 3 [(⟨5, fun _ => false⟩ : SynthesisLine)] ≠ [])) :=
  ⟨by decide, retry_attempt_semantics 3 (fun k => decide (k = 2))
    [(⟨5, fun _ => false⟩ : SynthesisLine)] (by decide)⟩

/-! Lemmas about the quality scorer. -/

theorem foldl_add_segmentScore (l : List AlignedSegment) (a : ℚ) :
    l.foldl (fun acc s => acc + segmentScore s) a = a + (l.map segmentScore).sum := by
  induction l generalizing a with
  | nil => simp
  | cons s rest ih =>
    simp only [List.foldl_cons, List.map_cons, List.sum_cons, ih]
    ring

theorem segmentScore_mem_bounds (s : AlignedSegment) (h0 : 0 ≤ s.confidence)
    (h1 : s.confidence ≤ 1) : 0 ≤ segmentScore s ∧ segmentScore s ≤ 1 := by
  unfold segmentScore
  have hp0 : (0 : ℚ) ≤ min ((s.drift_ms.natAbs : ℚ) / 500) (1 / 2) := by
    apply le_min
    · positivity
    · norm_num
  have hp1 : min ((s.drift_ms.natAbs : ℚ) / 500) (1 / 2) ≤ 1 :=
    le_trans (min_le_right _ _) (by norm_num)
  constructor
  · apply mul_nonneg h0
    linarith
  · calc s.confidence * (1 - min ((s.drift_ms.natAbs : ℚ) / 500) (1 / 2))
        ≤ 1 * 1 := by
          apply mul_le_mul h1 (by linarith) (by linarith) (by norm_num)
    _ = 1 := by norm_num

theorem sum_nonneg_of_mem (l : List ℚ) (h : ∀ x ∈ l, 0 ≤ x) : 0 ≤ l.sum := by
  induction l with
  | nil => simp
  | cons x rest ih =>
    simp only [List.sum_cons]
    have hx := h x (List.mem_cons_self x rest)
    have := ih (fun y hy => h y (List.mem_cons_of_mem x hy))
    linarith

theorem sum_le_length_of_mem (l : List ℚ) (h : ∀ x ∈ l, x ≤ 1) :
    l.sum ≤ (l.length : ℚ) := by
  induction l with
  | nil => simp
  | cons x rest ih =>
    simp only [List.sum_cons, List.length_cons]
    have hx := h x (List.mem_cons_self x rest)
    have := ih (fun y hy => h y (List.mem_cons_of_mem x hy))
    push_cast
    linarith

/-- Claim C6: the quality score of an empty aligned-segment list is exactly
1.0; for a non-empty list it is the arithmetic mean over all segments of
`confidence * (1.0 - min(abs(drift_ms) / 500.0, 0.5))`; and whenever every
segment's confidence lies in [0, 1], the score lies in [0, 1]. -/
theorem quality_score_spec (segs : List AlignedSegment) :
    calculateQualityScore [] = 1 ∧
    (segs ≠ [] → calculateQualityScore segs =
      (segs.map (fun s =>
        s.confidence * (1 - min ((s.drift_ms.natAbs : ℚ) / 500) (1 / 2)))).sum /
        (segs.length : ℚ)) ∧
    ((∀ s ∈ segs, 0 ≤ s.confidence ∧ s.confidence ≤ 1) →
      0 ≤ calculateQualityScore segs ∧ calculateQualityScore segs ≤ 1) := by
  have hmean : segs ≠ [] → calculateQualityScore segs =
      (segs.map segmentScore).sum / (segs.length : ℚ) := by
    intro hne
    unfold calculateQualityScore
    rw [if_neg (by simpa [List.isEmpty_iff] using hne)]
    rw [foldl_add_segmentScore]
    simp
  refine ⟨by simp [calculateQualityScore], hmean, ?_⟩
  intro hconf
  cases segs with
  | nil => simp [calculateQualityScore]
  | cons s rest =>
    rw [hmean (by simp)]
    have hlen : (0 : ℚ) < ((s :: rest).length : ℚ) := by
      simp only [List.length_cons]
      positivity
    have hb : ∀ x ∈ (s :: rest).map segmentScore, 0 ≤ x ∧ x ≤ 1 := by
      intro x hx
      rw [List.mem_map] at hx
      obtain ⟨t, ht, rfl⟩ := hx
      exact segmentScore_mem_bounds t (hconf t ht).1 (hconf t ht).2
    have hs0 : 0 ≤ ((s :: rest).map segmentScore).sum :=
      sum_nonneg_of_mem _ (fun x hx => (hb x hx).1)
    have hs1 : ((s :: rest).map segmentScore).sum ≤ ((s :: rest).length : ℚ) := by
      have := sum_le_length_of_mem ((s :: rest).map segmentScore)
        (fun x hx => (hb x hx).2)
      simpa using this
    constructor
    · positivity
    · rw [div_le_one hlen]
      exact hs1

/-- Witness for C6 at a one-segment list with confidence 0.9 and drift 250
(score 0.9 * 0.5 = 0.45). -/
theorem quality_score_spec_witness :
    ([(⟨1, 0, 0, 0, 0, 250, 9 / 10, ""⟩ : AlignedSegment)] ≠ [] ∧
     (∀ s ∈ [(⟨1, 0, 0, 0, 0, 250, 9 / 10, ""⟩ : AlignedSegment)],
       0 ≤ s.confidence ∧ s.confidence ≤ 1)) ∧
    (calculateQualityScore [] = 1 ∧
     ([(⟨1, 0, 0, 0, 0, 250, 9 / 10, ""⟩ : AlignedSegment)] ≠ [] →
      calculateQualityScore [(⟨1, 0, 0, 0, 0, 250, 9 / 10, ""⟩ : AlignedSegment)] =
        ([(⟨1, 0, 0, 0, 0, 250, 9 / 10, ""⟩ : AlignedSegment)].map (fun s =>
          s.confidence * (1 - min ((s.drift_ms.natAbs : ℚ) / 500) (1 / 2)))).sum /
          (([(⟨1, 0, 0, 0, 0, 250, 9 / 10, ""⟩ : AlignedSegment)].length : ℚ))) ∧
     ((∀ s ∈ [(⟨1, 0, 0, 0, 0, 250, 9 / 10, ""⟩ : AlignedSegment)],
        0 ≤ s.confidence ∧ s.confidence ≤ 1) →
      0 ≤ calculateQualityScore [(⟨1, 0, 0, 0, 0, 250, 9 / 10, ""⟩ : AlignedSegment)] ∧
      calculateQualityScore [(⟨1, 0, 0, 0, 0, 250, 9 / 10, ""⟩ : AlignedSegment)] ≤ 1)) :=
  ⟨⟨by simp, by
    intro s hs
    rw [List.mem_singleton] at hs
    subst hs
    constructor <;> norm_num⟩,
    quality_score_spec [(⟨1, 0, 0, 0, 0, 250, 9 / 10, ""⟩ : AlignedSegment)]⟩

/-! Lemmas about the stitcher. -/

theorem pauseFor_nonneg (dp : Int) (pauses : Option (List Int)) (i : Nat)
    (hdp : 0 ≤ dp) (hps : ∀ ps, pauses = some ps → ∀ p ∈ ps, 0 ≤ p) :
    0 ≤ pauseFor dp pauses i := by
  cases pauses with
  | none => simpa [pauseFor] using hdp
  | some ps =>
    simp only [pauseFor]
    by_cases h : (!ps.isEmpty && decide (i < ps.length)) = true
    · rw [if_pos h]
      simp only [Bool.and_eq_true, decide_eq_true_eq] at h
      exact hps ps rfl _ (getD_mem ps i 0 h.2)
    · rw [if_neg h]
      exact hdp

theorem stitchLoop_map_id (cfg : StitcherConfig) (pauses : Option (List Int))
    (infos : List AudioSegmentInfo) (i : Nat) (pos : Int) (c : Audio) :
    (stitchLoop cfg pauses infos i pos c).1.map (fun s => s.id) =
      infos.map (fun t => t.line_id) := by
  induction infos generalizing i pos c with
  | nil => rfl
  | cons info rest ih => simp [stitchLoop, ih]

theorem stitchLoop_map_dur (cfg : StitcherConfig) (pauses : Option (List Int))
    (infos : List AudioSegmentInfo) (i : Nat) (pos : Int) (c : Audio) :
    (stitchLoop cfg pauses infos i pos c).1.map (fun s => s.audio_duration_ms) =
      infos.map (fun t => t.duration_ms) := by
  induction infos generalizing i pos c with
  | nil => rfl
  | cons info rest ih => simp [stitchLoop, ih]

theorem stitchLoop_end_sub_start (cfg : StitcherConfig)
    (pauses : Option (List Int)) (infos : List AudioSegmentInfo) (i : Nat)
    (pos : Int) (c : Audio) :
    ∀ s ∈ (stitchLoop cfg pauses infos i pos c).1,
      s.end_ms - s.start_ms = s.audio_duration_ms := by
  induction infos generalizing i pos c with
  | nil => intro s hs; simp [stitchLoop] at hs
  | cons info rest ih =>
    intro s hs
    simp only [stitchLoop, List.mem_cons] at hs
    cases hs with
    | inl h => subst h; dsimp only; omega
    | inr h => exact ih _ _ _ s h

theorem stitchLoop_start_ge (cfg : StitcherConfig) (pauses : Option (List Int))
    (infos : List AudioSegmentInfo) (i : Nat) (pos : Int) (c : Audio)
    (hdur : ∀ info ∈ infos, 0 ≤ info.duration_ms)
    (hp : ∀ j, 0 ≤ pauseFor cfg.default_pause_ms pauses j) :
    ∀ s ∈ (stitchLoop cfg pauses infos i pos c).1, pos ≤ s.start_ms := by
  induction infos generalizing i pos c with
  | nil => intro s hs; simp [stitchLoop] at hs
  | cons info rest ih =>
    intro s hs
    simp only [stitchLoop, List.mem_cons] at hs
    cases hs with
    | inl h => subst h; dsimp only; omega
    | inr h =>
      have hd0 : 0 ≤ info.duration_ms := hdur info (List.mem_cons_self _ _)
      have hrest : ∀ t ∈ rest, 0 ≤ t.duration_ms :=
        fun t ht => hdur t (List.mem_cons_of_mem _ ht)
      by_cases hre : rest.isEmpty
      · rw [if_pos hre] at h
        have := ih (i + 1) (pos + info.duration_ms) _ hrest s h
        omega
      · rw [if_neg hre] at h
        have := ih (i + 1)
          (pos + info.duration_ms + pauseFor cfg.default_pause_ms pauses i) _ hrest s h
        have hpi := hp i
        omega

theorem stitchLoop_pairwise (cfg : StitcherConfig) (pauses : Option (List Int))
    (infos : List AudioSegmentInfo) (i : Nat) (pos : Int) (c : Audio)
    (hdur : ∀ info ∈ infos, 0 ≤ info.duration_ms)
    (hp : ∀ j, 0 ≤ pauseFor cfg.default_pause_ms pauses j) :
    (stitchLoop cfg pauses infos i pos c).1.Pairwise
      (fun a b => a.end_ms ≤ b.start_ms ∧ a.start_ms ≤ b.start_ms) := by
  induction infos generalizing i pos c with
  | nil => simp [stitchLoop]
  | cons info rest ih =>
    have hd0 : 0 ≤ info.duration_ms := hdur info (List.mem_cons_self _ _)
    have hrest : ∀ t ∈ rest, 0 ≤ t.duration_ms :=
      fun t ht => hdur t (List.mem_cons_of_mem _ ht)
    simp only [stitchLoop]
    refine List.Pairwise.cons ?_ (ih _ _ _ hrest)
    intro b hb
    by_cases hre : rest.isEmpty
    · rw [if_pos hre] at hb
      rw [List.isEmpty_iff] at hre
      subst hre
      simp [stitchLoop] at hb
    · rw [if_neg hre] at hb
      have hbs := stitchLoop_start_ge cfg pauses rest (i + 1)
        (pos + info.duration_ms + pauseFor cfg.default_pause_ms pauses i) _
        hrest hp b hb
      have hpi := hp i
      dsimp only
      omega

theorem stitchLoop_pairwise_strict (cfg : StitcherConfig)
    (pauses : Option (List Int)) (infos : List AudioSegmentInfo) (i : Nat)
    (pos : Int) (c : Audio)
    (hdur : ∀ info ∈ infos, 0 < info.duration_ms)
    (hp : ∀ j, 0 ≤ pauseFor cfg.default_pause_ms pauses j) :
    (stitchLoop cfg pauses infos i pos c).1.Pairwise
      (fun a b => a.start_ms < b.start_ms) := by
  induction infos generalizing i pos c with
  | nil => simp [stitchLoop]
  | cons info rest ih =>
    have hd0 : 0 < info.duration_ms := hdur info (List.mem_cons_self _ _)
    have hrest : ∀ t ∈ rest, 0 < t.duration_ms :=
      fun t ht => hdur t (List.mem_cons_of_mem _ ht)
    have hrest' : ∀ t ∈ rest, 0 ≤ t.duration_ms :=
      fun t ht => le_of_lt (hrest t ht)
    simp only [stitchLoop]
    refine List.Pairwise.cons ?_ (ih _ _ _ hrest)
    intro b hb
    by_cases hre : rest.isEmpty
    · rw [if_pos hre] at hb
      rw [List.isEmpty_iff] at hre
      subst hre
      simp [stitchLoop] at hb
    · rw [if_neg hre] at hb
      have hbs := stitchLoop_start_ge cfg pauses rest (i + 1)
        (pos + info.duration_ms + pauseFor cfg.default_pause_ms pauses i) _
        hrest' hp b hb
      have hpi := hp i
      dsimp only
      omega

/-- Claim C2 (amended): for every non-empty input with non-negative durations
and pauses, the stitcher emits one segment per input line in input order
(ids and durations match positionally), `end_ms - start_ms =
audio_duration_ms` for every segment, the segments are non-overlapping
(each segment ends no later than any later segment starts) with
non-decreasing `start_ms`; the ordering is strict whenever every line's
duration is positive. -/
theorem stitch_segment_invariants (cfg : StitcherConfig) (dBFS : Audio → ℚ)
    (applyGain : ℚ → Audio → Audio) (infos : List AudioSegmentInfo)
    (pauses : Option (List Int))
    (hne : infos ≠ [])
    (hdur : ∀ info ∈ infos, 0 ≤ info.duration_ms)
    (hdp : 0 ≤ cfg.default_pause_ms)
    (hps : ∀ ps, pauses = some ps → ∀ p ∈ ps, 0 ≤ p) :
    (stitch cfg dBFS applyGain infos pauses).segments.map (fun s => s.id) =
        infos.map (fun t => t.line_id) ∧
    (stitch cfg dBFS applyGain infos pauses).segments.map
        (fun s => s.audio_duration_ms) = infos.map (fun t => t.duration_ms) ∧
    (∀ s ∈ (stitch cfg dBFS applyGain infos pauses).segments,
      s.end_ms - s.start_ms = s.audio_duration_ms) ∧
    (stitch cfg dBFS applyGain infos pauses).segments.Pairwise
        (fun a b => a.end_ms ≤ b.start_ms ∧ a.start_ms ≤ b.start_ms) ∧
    ((∀ info ∈ infos, 0 < info.duration_ms) →
      (stitch cfg dBFS applyGain infos pauses).segments.Pairwise
        (fun a b => a.start_ms < b.start_ms)) := by
  have hp : ∀ j, 0 ≤ pauseFor cfg.default_pause_ms pauses j :=
    fun j => pauseFor_nonneg cfg.default_pause_ms pauses j hdp hps
  have hseg : (stitch cfg dBFS applyGain infos pauses).segments =
      (stitchLoop cfg pauses infos 0 cfg.initial_silence_ms
        (create_silence cfg.initial_silence_ms cfg.sample_rate)).1 := by
    unfold stitch
    rw [if_neg (by simpa [List.isEmpty_iff] using hne)]
  rw [hseg]
  exact ⟨stitchLoop_map_id cfg pauses infos 0 _ _,
    stitchLoop_map_dur cfg pauses infos 0 _ _,
    stitchLoop_end_sub_start cfg pauses infos 0 _ _,
    stitchLoop_pairwise cfg pauses infos 0 _ _ hdur hp,
    fun hpos => stitchLoop_pairwise_strict cfg pauses infos 0 _ _ hpos hp⟩

/-- Counterexample to C2 as stated: two rendered lines of duration 0 with
pause 0 both receive `start_ms = 300`, so the output segments are not
strictly ordered by ascending `start_ms`. -/
theorem stitch_strict_order_counterexample :
    (stitch ⟨300, 400, some (-16), 24000⟩ (fun _ => 0) (fun _ a => a)
      [⟨1, "a", "x", [], 0⟩, ⟨2, "b", "y", [], 0⟩]
      (some [0, 0])).segments.map (fun s => s.start_ms) = [300, 300] ∧
    ¬ (stitch ⟨300, 400, some (-16), 24000⟩ (fun _ => 0) (fun _ a => a)
      [⟨1, "a", "x", [], 0⟩, ⟨2, "b", "y", [], 0⟩]
      (some [0, 0])).segments.Pairwise (fun a b => a.start_ms < b.start_ms) := by
  constructor
  · rfl
  · intro h
    rw [List.pairwise_iff_getElem] at h
    have h01 := h 0 1 (by decide) (by decide) (by decide)
    revert h01
    decide

/-- Witness for the amended C2 at the counterexample's configuration with
positive durations. -/
theorem stitch_segment_invariants_witness :
    ([(⟨1, "a", "x", [], 5⟩ : AudioSegmentInfo), ⟨2, "b", "y", [], 7⟩] ≠ [] ∧
     (∀ info ∈ [(⟨1, "a", "x", [], 5⟩ : AudioSegmentInfo), ⟨2, "b", "y", [], 7⟩],
       (0 : Int) ≤ info.duration_ms) ∧
     (0 : Int) ≤ (⟨300, 400, some (-16), 24000⟩ : StitcherConfig).default_pause_ms) ∧
    ((stitch ⟨300, 400, some (-16), 24000⟩ (fun _ => 0) (fun _ a => a)
        [⟨1, "a", "x", [], 5⟩, ⟨2, "b", "y", [], 7⟩] none).segments.map
        (fun s => s.id) =
      [(⟨1, "a", "x", [], 5⟩ : AudioSegmentInfo), ⟨2, "b", "y", [], 7⟩].map
        (fun t => t.line_id) ∧
     (stitch ⟨300, 400, some (-16), 24000⟩ (fun _ => 0) (fun _ a => a)
        [⟨1, "a", "x", [], 5⟩, ⟨2, "b", "y", [], 7⟩] none).segments.map
        (fun s => s.audio_duration_ms) =
      [(⟨1, "a", "x", [], 5⟩ : AudioSegmentInfo), ⟨2, "b", "y", [], 7⟩].map
        (fun t => t.duration_ms) ∧
     (∀ s ∈ (stitch ⟨300, 400, some (-16), 24000⟩ (fun _ => 0) (fun _ a => a)
        [⟨1, "a", "x", [], 5⟩, ⟨2, "b", "y", [], 7⟩] none).segments,
       s.end_ms - s.start_ms = s.audio_duration_ms) ∧
     (stitch ⟨300, 400, some (-16), 24000⟩ (fun _ => 0) (fun _ a => a)
        [⟨1, "a", "x", [], 5⟩, ⟨2, "b", "y", [], 7⟩] none).segments.Pairwise
        (fun a b => a.end_ms ≤ b.start_ms ∧ a.start_ms ≤ b.start_ms) ∧
     ((∀ info ∈ [(⟨1, "a", "x", [], 5⟩ : AudioSegmentInfo), ⟨2, "b", "y", [], 7⟩],
        0 < info.duration_ms) →
      (stitch ⟨300, 400, some (-16), 24000⟩ (fun _ => 0) (fun _ a => a)
        [⟨1, "a", "x", [], 5⟩, ⟨2, "b", "y", [], 7⟩] none).segments.Pairwise
        (fun a b => a.start_ms < b.start_ms))) :=
  ⟨⟨by decide, by decide, by decide⟩,
    stitch_segment_invariants ⟨300, 400, some (-16), 24000⟩ (fun _ => 0)
      (fun _ a => a) [⟨1, "a", "x", [], 5⟩, ⟨2, "b", "y", [], 7⟩] none
      (by decide) (by decide) (by decide) (fun ps hps => by simp at hps)⟩

theorem stitchLoop_audio_length (cfg : StitcherConfig)
    (pauses : Option (List Int)) (infos : List AudioSegmentInfo) (i : Nat)
    (pos : Int) (c : Audio) :
    ((stitchLoop cfg pauses infos i pos c).2.2).length =
      c.length + audioSpan cfg pauses infos i := by
  induction infos generalizing i pos c with
  | nil => simp [stitchLoop, audioSpan]
  | cons info rest ih =>
    cases rest with
    | nil => simp [stitchLoop, audioSpan]
    | cons r1 r2 =>
      conv_lhs => rw [stitchLoop]
      rw [if_neg (by simp : ¬(r1 :: r2).isEmpty = true)]
      dsimp only
      rw [ih]
      simp only [audioSpan, List.length_append, create_silence,
        List.length_replicate]
      omega

/-- With normalization disabled, the stitcher's reported total duration is
the initial silence plus the appended audio and gaps. -/
theorem stitch_total_duration (cfg : StitcherConfig) (dBFS : Audio → ℚ)
    (applyGain : ℚ → Audio → Audio) (infos : List AudioSegmentInfo)
    (pauses : Option (List Int)) (hne : infos ≠ [])
    (hnorm : cfg.normalize_dbfs = none) :
    (stitch cfg dBFS applyGain infos pauses).total_duration_ms =
      (((create_silence cfg.initial_silence_ms cfg.sample_rate).length +
        audioSpan cfg pauses infos 0 : Nat) : Int) := by
  unfold stitch
  rw [if_neg (by simpa [List.isEmpty_iff] using hne), hnorm]
  dsimp only
  rw [stitchLoop_audio_length]

/-- Claim C8: three lines of 1000 ms each, pause 400 ms, initial silence
300 ms: segments start at 300, 1700 and 3100, each lasting 1000 ms, and the
stitched track is 4100 ms long before normalization (no pause after the last
line). -/
theorem stitch_example_scenario :
    (stitch ⟨300, 400, none, 24000⟩ (fun _ => 0) (fun _ a => a)
      [⟨1, "s", "Hi.", List.replicate 1000 0, 1000⟩,
       ⟨2, "s", "How are you?", List.replicate 1000 0, 1000⟩,
       ⟨3, "s", "Good, thanks.", List.replicate 1000 0, 1000⟩]
      none).segments.map (fun s => s.start_ms) = [300, 1700, 3100] ∧
    (stitch ⟨300, 400, none, 24000⟩ (fun _ => 0) (fun _ a => a)
      [⟨1, "s", "Hi.", List.replicate 1000 0, 1000⟩,
       ⟨2, "s", "How are you?", List.replicate 1000 0, 1000⟩,
       ⟨3, "s", "Good, thanks.", List.replicate 1000 0, 1000⟩]
      none).segments.map (fun s => s.end_ms - s.start_ms) = [1000, 1000, 1000] ∧
    (stitch ⟨300, 400, none, 24000⟩ (fun _ => 0) (fun _ a => a)
      [⟨1, "s", "Hi.", List.replicate 1000 0, 1000⟩,
       ⟨2, "s", "How are you?", List.replicate 1000 0, 1000⟩,
       ⟨3, "s", "Good, thanks.", List.replicate 1000 0, 1000⟩]
      none).total_duration_ms = 4100 := by
  refine ⟨rfl, rfl, ?_⟩
  rw [stitch_total_duration _ _ _ _ _ (List.cons_ne_nil _ _) rfl]
  norm_num [audioSpan, pauseFor, create_silence]

/-- Claim C7 (amended): the stitching path performs no silence trimming:
`stitch_from_bytes` appends each rendered line's audio exactly as loaded and
records `audio_duration_ms = len(audio)`, the raw rendered duration.  (The
`trim_silence` utility exists in `src/src/utils/audio.py` but is not invoked
anywhere in the stitching path.) -/
theorem stitch_from_bytes_raw_durations (cfg : StitcherConfig)
    (dBFS : Audio → ℚ) (applyGain : ℚ → Audio → Audio)
    (audio_data : List (Int × String × String × Audio × Int)) :
    (stitch_from_bytes cfg dBFS applyGain audio_data).segments.map
        (fun s => s.audio_duration_ms) =
      audio_data.map (fun t => ((t.2.2.2.1).length : Int)) := by
  unfold stitch_from_bytes
  cases audio_data with
  | nil => rfl
  | cons t ts =>
    dsimp only
    unfold stitch
    rw [if_neg (by simp)]
    dsimp only
    rw [stitchLoop_map_dur, List.map_map]
    rfl

/-- Counterexample to C7 as stated: a 121 ms render with 60 ms of near-silence
(-60 dBFS) on each side of a 1 ms sound.  `trim_silence` at the default
threshold -50 and guard 50 would keep 101 ms, but the stitcher records the raw
121 ms as the segment's duration. -/
theorem stitch_from_bytes_no_trim_counterexample :
    (stitch_from_bytes ⟨300, 400, none, 24000⟩ (fun _ => 0) (fun _ a => a)
      [(1, "s", "Hi.", List.replicate 60 (-60) ++ [0] ++ List.replicate 60 (-60),
        400)]).segments.map (fun s => s.audio_duration_ms) = [121] ∧
    (trim_silence (List.replicate 60 (-60) ++ [0] ++ List.replicate 60 (-60))
      (-50) 100 50).length = 101 ∧
    (121 : Int) ≠ 101 := by
  refine ⟨rfl, ?_, by decide⟩
  rfl

/-! Digit and decimal-numeral lemmas for the SRT round trip. -/

theorem isDigitCh_dCh : ∀ n, n < 10 → isDigitCh (dCh n) = true := by decide

theorem digitVal_dCh : ∀ n, n < 10 → digitVal (dCh n) = n := by decide

theorem ne_of_digit (c d : Char) (h : isDigitCh c = true)
    (hd : isDigitCh d = false) : c ≠ d := by
  intro he
  rw [he, hd] at h
  cases h

theorem not_ws_of_ne (c : Char) (h1 : c ≠ ' ') (h2 : c ≠ '\t') (h3 : c ≠ '\n')
    (h4 : c ≠ '\r') (h5 : c ≠ '\x0b') (h6 : c ≠ '\x0c') : isPyWs c = false := by
  simp [isPyWs, h1, h2, h3, h4, h5, h6]

theorem digit_not_ws (c : Char) (h : isDigitCh c = true) : isPyWs c = false :=
  not_ws_of_ne c (ne_of_digit c ' ' h (by decide))
    (ne_of_digit c '\t' h (by decide)) (ne_of_digit c '\n' h (by decide))
    (ne_of_digit c '\r' h (by decide)) (ne_of_digit c '\x0b' h (by decide))
    (ne_of_digit c '\x0c' h (by decide))

theorem digitsAux_acc (fuel n : Nat) (acc : List Char) :
    digitsAux fuel n acc = digitsAux fuel n [] ++ acc := by
  induction fuel generalizing n acc with
  | zero => simp [digitsAux]
  | succ f ih =>
    unfold digitsAux
    by_cases h : n < 10
    · rw [if_pos h, if_pos h]
      rfl
    · rw [if_neg h, if_neg h, ih (n / 10) (dCh (n % 10) :: acc),
        ih (n / 10) [dCh (n % 10)]]
      simp

theorem digitsAux_fuel_irrel :
    ∀ n f1 f2, n < f1 → n < f2 → digitsAux f1 n [] = digitsAux f2 n [] := by
  intro n
  induction n using Nat.strong_induction_on with
  | _ n ih =>
    intro f1 f2 h1 h2
    cases f1 with
    | zero => omega
    | succ g1 =>
      cases f2 with
      | zero => omega
      | succ g2 =>
        unfold digitsAux
        by_cases h : n < 10
        · rw [if_pos h, if_pos h]
        · rw [if_neg h, if_neg h, digitsAux_acc g1, digitsAux_acc g2,
            ih (n / 10) (by omega) g1 g2 (by omega) (by omega)]

theorem natToChars_lt10 (n : Nat) (h : n < 10) : natToChars n = [dCh n] := by
  unfold natToChars digitsAux
  rw [if_pos h]

theorem natToChars_ge10 (n : Nat) (h : 10 ≤ n) :
    natToChars n = natToChars (n / 10) ++ [dCh (n % 10)] := by
  show digitsAux (n + 1) n [] = _
  unfold digitsAux
  rw [if_neg (by omega), digitsAux_acc,
    digitsAux_fuel_irrel (n / 10) n (n / 10 + 1) (by omega) (by omega)]
  rfl

theorem natToChars_mem_digit (n : Nat) :
    ∀ c ∈ natToChars n, isDigitCh c = true := by
  induction n using Nat.strong_induction_on with
  | _ n ih =>
    intro c hc
    by_cases h : n < 10
    · rw [natToChars_lt10 n h] at hc
      rw [List.mem_singleton] at hc
      subst hc
      exact isDigitCh_dCh n h
    · rw [natToChars_ge10 n (by omega)] at hc
      rw [List.mem_append] at hc
      cases hc with
      | inl hc => exact ih (n / 10) (by omega) c hc
      | inr hc =>
        rw [List.mem_singleton] at hc
        subst hc
        exact isDigitCh_dCh _ (by omega)

theorem natToChars_ne_nil (n : Nat) : natToChars n ≠ [] := by
  by_cases h : n < 10
  · rw [natToChars_lt10 n h]
    simp
  · rw [natToChars_ge10 n (by omega)]
    simp

theorem valNat_append_digit (l : List Char) (c : Char) :
    valNat (l ++ [c]) = valNat l * 10 + digitVal c := by
  simp [valNat, List.foldl_append]

theorem valNat_natToChars (n : Nat) : valNat (natToChars n) = n := by
  induction n using Nat.strong_induction_on with
  | _ n ih =>
    by_cases h : n < 10
    · rw [natToChars_lt10 n h]
      show 0 * 10 + digitVal (dCh n) = n
      rw [digitVal_dCh n h]
      omega
    · rw [natToChars_ge10 n (by omega), valNat_append_digit,
        ih (n / 10) (by omega), digitVal_dCh _ (by omega)]
      omega

theorem parseNatChars_natToChars (n : Nat) :
    parseNatChars (natToChars n) = some n := by
  unfold parseNatChars
  rw [if_pos]
  · rw [valNat_natToChars]
  · rw [Bool.and_eq_true]
    constructor
    · simpa [List.isEmpty_iff] using natToChars_ne_nil n
    · rw [List.all_eq_true]
      exact natToChars_mem_digit n

/-! Strip lemmas. -/

theorem dropWhile_firstNonWs (l : List Char) (h : firstNonWs l = true) :
    l.dropWhile isPyWs = l := by
  cases l with
  | nil => simp [firstNonWs] at h
  | cons c rest =>
    simp only [firstNonWs, Bool.not_eq_true'] at h
    simp [List.dropWhile_cons, h]

theorem pyStrip_eq_self (l : List Char) (h1 : firstNonWs l = true)
    (h2 : firstNonWs l.reverse = true) : pyStrip l = l := by
  unfold pyStrip
  rw [dropWhile_firstNonWs l h1, dropWhile_firstNonWs l.reverse h2,
    List.reverse_reverse]

theorem firstNonWs_append (a b : List Char) (ha : a ≠ []) :
    firstNonWs (a ++ b) = firstNonWs a := by
  cases a with
  | nil => exact absurd rfl ha
  | cons c rest => rfl

theorem firstNonWs_of_mem_digit (l : List Char)
    (h : ∀ c ∈ l, isDigitCh c = true) (hne : l ≠ []) : firstNonWs l = true := by
  cases l with
  | nil => exact absurd rfl hne
  | cons c rest =>
    simp only [firstNonWs, Bool.not_eq_true']
    exact digit_not_ws c (h c (List.mem_cons_self _ _))

theorem pyStrip_of_all_not_ws (l : List Char)
    (h : ∀ c ∈ l, isPyWs c = false) (hne : l ≠ []) : pyStrip l = l := by
  apply pyStrip_eq_self
  · cases l with
    | nil => exact absurd rfl hne
    | cons c rest =>
      simp only [firstNonWs, Bool.not_eq_true']
      exact h c (List.mem_cons_self _ _)
  · cases hr : l.reverse with
    | nil =>
      rw [List.reverse_eq_nil_iff] at hr
      exact absurd hr hne
    | cons c rest =>
      simp only [firstNonWs, Bool.not_eq_true']
      apply h
      rw [← List.mem_reverse, hr]
      exact List.mem_cons_self _ _

theorem pyStrip_append_nl (X : List Char) (h1 : firstNonWs X = true)
    (h2 : firstNonWs X.reverse = true) : pyStrip (X ++ ['\n']) = X := by
  have hne : X ≠ [] := by
    intro he
    subst he
    simp [firstNonWs] at h1
  unfold pyStrip
  rw [dropWhile_firstNonWs (X ++ ['\n'])
    (by rw [firstNonWs_append X ['\n'] hne]; exact h1)]
  rw [List.reverse_append]
  show (List.dropWhile isPyWs ('\n' :: X.reverse)).reverse = X
  rw [List.dropWhile_cons, if_pos (by decide),
    dropWhile_firstNonWs X.reverse h2, List.reverse_reverse]

/-! Integer parsing and formatting round trips. -/

theorem valNat_zero_cons (l : List Char) : valNat ('0' :: l) = valNat l := rfl

theorem parseNatChars_zero_cons (n : Nat) :
    parseNatChars ('0' :: natToChars n) = some n := by
  unfold parseNatChars
  rw [if_pos]
  · rw [valNat_zero_cons, valNat_natToChars]
  · rw [Bool.and_eq_true]
    refine ⟨by simp, ?_⟩
    rw [List.all_eq_true]
    intro c hc
    rw [List.mem_cons] at hc
    cases hc with
    | inl hc => subst hc; decide
    | inr hc => exact natToChars_mem_digit n c hc

theorem intToChars_mem (z : Int) :
    ∀ c ∈ intToChars z, isDigitCh c = true ∨ c = '-' := by
  intro c hc
  unfold intToChars at hc
  by_cases h : z < 0
  · rw [if_pos h] at hc
    rw [List.mem_cons] at hc
    cases hc with
    | inl hc => exact Or.inr hc
    | inr hc => exact Or.inl (natToChars_mem_digit _ c hc)
  · rw [if_neg h] at hc
    exact Or.inl (natToChars_mem_digit _ c hc)

theorem intToChars_ne_nil (z : Int) : intToChars z ≠ [] := by
  unfold intToChars
  by_cases h : z < 0
  · rw [if_pos h]
    simp
  · rw [if_neg h]
    exact natToChars_ne_nil _

theorem intToChars_not_ws (z : Int) : ∀ c ∈ intToChars z, isPyWs c = false := by
  intro c hc
  cases intToChars_mem z c hc with
  | inl h => exact digit_not_ws c h
  | inr h => subst h; decide

theorem parseIntChars_natToChars (n : Nat) :
    parseIntChars (natToChars n) = some (n : Int) := by
  unfold parseIntChars
  rw [pyStrip_of_all_not_ws _ (fun c hc => digit_not_ws c (natToChars_mem_digit n c hc))
    (natToChars_ne_nil n)]
  cases hl : natToChars n with
  | nil => exact absurd hl (natToChars_ne_nil n)
  | cons c rest =>
    have hcd : isDigitCh c = true := by
      apply natToChars_mem_digit n
      rw [hl]
      exact List.mem_cons_self _ _
    dsimp only
    rw [if_neg (ne_of_digit c '-' hcd (by decide)),
      if_neg (ne_of_digit c '+' hcd (by decide)), ← hl,
      parseNatChars_natToChars n]
    rfl

theorem parseIntChars_intToChars (z : Int) :
    parseIntChars (intToChars z) = some z := by
  by_cases h : z < 0
  · unfold parseIntChars
    rw [pyStrip_of_all_not_ws _ (intToChars_not_ws z) (intToChars_ne_nil z)]
    unfold intToChars
    rw [if_pos h]
    dsimp only
    rw [if_pos rfl, parseNatChars_natToChars]
    dsimp only [Option.map]
    simp only [Int.ofNat_eq_coe]
    congr 1
    omega
  · unfold intToChars
    rw [if_neg h, parseIntChars_natToChars]
    congr 1
    omega

theorem parseIntChars_pad2 (z : Int) : parseIntChars (pad2 z) = some z := by
  unfold pad2
  by_cases h : (0 ≤ z && z < 10) = true
  · rw [if_pos h]
    rw [Bool.and_eq_true, decide_eq_true_eq, decide_eq_true_eq] at h
    have hws : ∀ c ∈ ('0' :: natToChars z.toNat), isPyWs c = false := by
      intro c hc
      rw [List.mem_cons] at hc
      cases hc with
      | inl hc => subst hc; decide
      | inr hc => exact digit_not_ws c (natToChars_mem_digit _ c hc)
    unfold parseIntChars
    rw [pyStrip_of_all_not_ws _ hws (by simp)]
    dsimp only
    rw [if_neg (by decide), if_neg (by decide), parseNatChars_zero_cons]
    dsimp only [Option.map]
    simp only [Int.ofNat_eq_coe]
    congr 1
    omega
  · rw [if_neg h]
    exact parseIntChars_intToChars z

theorem parseIntChars_pad3 (z : Int) (h0 : 0 ≤ z) (h1 : z < 1000) :
    parseIntChars (pad3 z) = some z := by
  unfold pad3
  by_cases ha : (0 ≤ z && z < 10) = true
  · rw [if_pos ha]
    rw [Bool.and_eq_true, decide_eq_true_eq, decide_eq_true_eq] at ha
    have hws : ∀ c ∈ ('0' :: '0' :: natToChars z.toNat), isPyWs c = false := by
      intro c hc
      simp only [List.mem_cons] at hc
      rcases hc with rfl | rfl | hc
      · decide
      · decide
      · exact digit_not_ws c (natToChars_mem_digit _ c hc)
    have hp : parseNatChars ('0' :: '0' :: natToChars z.toNat) = some z.toNat := by
      unfold parseNatChars
      rw [if_pos]
      · show some (valNat ('0' :: '0' :: natToChars z.toNat)) = _
        rw [valNat_zero_cons, valNat_zero_cons, valNat_natToChars]
      · rw [Bool.and_eq_true]
        refine ⟨by simp, ?_⟩
        rw [List.all_eq_true]
        intro c hc
        simp only [List.mem_cons] at hc
        rcases hc with rfl | rfl | hc
        · decide
        · decide
        · exact natToChars_mem_digit _ c hc
    unfold parseIntChars
    rw [pyStrip_of_all_not_ws _ hws (by simp)]
    dsimp only
    rw [if_neg (by decide), if_neg (by decide), hp]
    dsimp only [Option.map]
    simp only [Int.ofNat_eq_coe]
    congr 1
    omega
  · rw [if_neg ha]
    by_cases hb : (0 ≤ z && z < 100) = true
    · rw [if_pos hb]
      rw [Bool.and_eq_true, decide_eq_true_eq, decide_eq_true_eq] at hb
      have hws : ∀ c ∈ ('0' :: natToChars z.toNat), isPyWs c = false := by
        intro c hc
        rw [List.mem_cons] at hc
        cases hc with
        | inl hc => subst hc; decide
        | inr hc => exact digit_not_ws c (natToChars_mem_digit _ c hc)
      unfold parseIntChars
      rw [pyStrip_of_all_not_ws _ hws (by simp)]
      dsimp only
      rw [if_neg (by decide), if_neg (by decide), parseNatChars_zero_cons]
      dsimp only [Option.map]
      simp only [Int.ofNat_eq_coe]
      congr 1
      omega
    · rw [if_neg hb]
      exact parseIntChars_intToChars z

theorem pad2_mem (z : Int) : ∀ c ∈ pad2 z, isDigitCh c = true ∨ c = '-' := by
  intro c hc
  unfold pad2 at hc
  by_cases h : (0 ≤ z && z < 10) = true
  · rw [if_pos h] at hc
    rw [List.mem_cons] at hc
    cases hc with
    | inl hc => subst hc; exact Or.inl (by decide)
    | inr hc => exact Or.inl (natToChars_mem_digit _ c hc)
  · rw [if_neg h] at hc
    exact intToChars_mem z c hc

theorem pad3_mem (z : Int) : ∀ c ∈ pad3 z, isDigitCh c = true ∨ c = '-' := by
  intro c hc
  unfold pad3 at hc
  by_cases ha : (0 ≤ z && z < 10) = true
  · rw [if_pos ha] at hc
    simp only [List.mem_cons] at hc
    rcases hc with rfl | rfl | hc
    · exact Or.inl (by decide)
    · exact Or.inl (by decide)
    · exact Or.inl (natToChars_mem_digit _ c hc)
  · rw [if_neg ha] at hc
    by_cases hb : (0 ≤ z && z < 100) = true
    · rw [if_pos hb] at hc
      rw [List.mem_cons] at hc
      cases hc with
      | inl hc => subst hc; exact Or.inl (by decide)
      | inr hc => exact Or.inl (natToChars_mem_digit _ c hc)
    · rw [if_neg hb] at hc
      exact intToChars_mem z c hc

theorem pad2_ne_nil (z : Int) : pad2 z ≠ [] := by
  unfold pad2
  by_cases h : (0 ≤ z && z < 10) = true
  · rw [if_pos h]
    simp
  · rw [if_neg h]
    exact intToChars_ne_nil z

/-! Single-character split lemmas. -/

theorem splitCharAux_not_mem (sep : Char) (l acc : List Char) (h : sep ∉ l) :
    splitCharAux sep l acc = [acc.reverse ++ l] := by
  induction l generalizing acc with
  | nil => simp [splitCharAux]
  | cons c rest ih =>
    have hc : c ≠ sep := by
      intro he
      exact h (he ▸ List.mem_cons_self _ _)
    unfold splitCharAux
    rw [if_neg hc, ih _ (fun hm => h (List.mem_cons_of_mem _ hm))]
    simp

theorem splitCharAux_append (sep : Char) (a b acc : List Char) (h : sep ∉ a) :
    splitCharAux sep (a ++ sep :: b) acc =
      (acc.reverse ++ a) :: splitCharAux sep b [] := by
  induction a generalizing acc with
  | nil =>
    show splitCharAux sep (sep :: b) acc = _
    rw [splitCharAux]
    rw [if_pos rfl]
    simp
  | cons c rest ih =>
    have hc : c ≠ sep := by
      intro he
      exact h (he ▸ List.mem_cons_self _ _)
    show splitCharAux sep (c :: (rest ++ sep :: b)) acc = _
    rw [splitCharAux]
    rw [if_neg hc, ih _ (fun hm => h (List.mem_cons_of_mem _ hm))]
    simp

theorem splitCharAux_ne_nil (sep : Char) (l acc : List Char) :
    splitCharAux sep l acc ≠ [] := by
  induction l generalizing acc with
  | nil => simp [splitCharAux]
  | cons c rest ih =>
    unfold splitCharAux
    by_cases hc : c = sep
    · rw [if_pos hc]
      simp
    · rw [if_neg hc]
      exact ih _

theorem joinChar_splitCharAux (sep : Char) (l acc : List Char) :
    joinChar sep (splitCharAux sep l acc) = acc.reverse ++ l := by
  induction l generalizing acc with
  | nil => simp [splitCharAux, joinChar]
  | cons c rest ih =>
    unfold splitCharAux
    by_cases hc : c = sep
    · rw [if_pos hc]
      obtain ⟨y, t, hyt⟩ := List.exists_cons_of_ne_nil (splitCharAux_ne_nil sep rest [])
      rw [hyt]
      show acc.reverse ++ sep :: joinChar sep (y :: t) = acc.reverse ++ c :: rest
      rw [← hyt, ih []]
      simp [hc]
    · rw [if_neg hc, ih (c :: acc)]
      simp

theorem joinChar_pySplitChar (sep : Char) (l : List Char) :
    joinChar sep (pySplitChar sep l) = l := by
  unfold pySplitChar
  rw [joinChar_splitCharAux]
  rfl

theorem pySplitChar_not_mem (sep : Char) (l : List Char) (h : sep ∉ l) :
    pySplitChar sep l = [l] := by
  unfold pySplitChar
  rw [splitCharAux_not_mem sep l [] h]
  rfl

theorem pySplitChar_append (sep : Char) (a b : List Char) (h : sep ∉ a) :
    pySplitChar sep (a ++ sep :: b) = a :: pySplitChar sep b := by
  unfold pySplitChar
  rw [splitCharAux_append sep a b [] h]
  rfl

theorem pySplitChar_ne_nil (sep : Char) (l : List Char) :
    pySplitChar sep l ≠ [] := splitCharAux_ne_nil sep l []

/-! Blank-line split lemmas. -/

theorem firstIsNl_append (a b : List Char) (ha : a ≠ []) :
    firstIsNl (a ++ b) = firstIsNl a := by
  cases a with
  | nil => exact absurd rfl ha
  | cons c r => rfl

theorem lastIsNl_cons_cons (c1 c2 : Char) (l : List Char) :
    lastIsNl (c1 :: c2 :: l) = lastIsNl (c2 :: l) := by
  unfold lastIsNl
  rw [List.reverse_cons c1 (c2 :: l)]
  exact firstIsNl_append _ _ (by simp)

theorem splitBlankAux_no (a : List Char) (acc : List Char)
    (hn : hasNN a = false) : splitBlankAux a acc = [acc.reverse ++ a] := by
  induction a generalizing acc with
  | nil => simp [splitBlankAux]
  | cons c1 a2 ih =>
    cases a2 with
    | nil => simp [splitBlankAux]
    | cons c2 a3 =>
      simp only [hasNN, Bool.or_eq_false_iff, Bool.and_eq_false_iff] at hn
      have hcond : ¬(c1 = '\n' ∧ c2 = '\n') := by
        intro hand
        rcases hn.1 with hno | hno <;> rw [decide_eq_false_iff_not] at hno
        · exact hno hand.1
        · exact hno hand.2
      rw [splitBlankAux]
      rw [if_neg hcond]
      rw [ih (c1 :: acc) hn.2]
      simp

theorem splitBlankAux_append (a b acc : List Char) (hn : hasNN a = false)
    (hl : lastIsNl a = false) :
    splitBlankAux (a ++ '\n' :: '\n' :: b) acc =
      (acc.reverse ++ a) :: splitBlankAux b [] := by
  induction a generalizing acc with
  | nil =>
    show splitBlankAux ('\n' :: '\n' :: b) acc = _
    rw [splitBlankAux]
    rw [if_pos ⟨rfl, rfl⟩]
    simp
  | cons c1 a2 ih =>
    cases a2 with
    | nil =>
      have hc1 : c1 ≠ '\n' := by
        simpa [lastIsNl, firstIsNl] using hl
      show splitBlankAux (c1 :: '\n' :: '\n' :: b) acc = _
      rw [splitBlankAux]
      rw [if_neg (fun hand => hc1 hand.1)]
      rw [splitBlankAux]
      rw [if_pos ⟨rfl, rfl⟩]
      simp
    | cons c2 a3 =>
      simp only [hasNN, Bool.or_eq_false_iff, Bool.and_eq_false_iff] at hn
      have hl2 : lastIsNl (c2 :: a3) = false := by
        rw [lastIsNl_cons_cons] at hl
        exact hl
      have hcond : ¬(c1 = '\n' ∧ c2 = '\n') := by
        intro hand
        rcases hn.1 with hno | hno <;> rw [decide_eq_false_iff_not] at hno
        · exact hno hand.1
        · exact hno hand.2
      show splitBlankAux (c1 :: ((c2 :: a3) ++ '\n' :: '\n' :: b)) acc = _
      rw [List.cons_append]
      rw [splitBlankAux]
      rw [if_neg hcond]
      rw [← List.cons_append]
      rw [ih (c1 :: acc) hn.2 hl2]
      simp

theorem pySplitBlank_joinNN (bs : List (List Char)) (hne : bs ≠ [])
    (h : ∀ b ∈ bs, hasNN b = false ∧ lastIsNl b = false) :
    pySplitBlank (joinNN bs) = bs := by
  induction bs with
  | nil => exact absurd rfl hne
  | cons b rest ih =>
    cases rest with
    | nil =>
      show splitBlankAux b [] = [b]
      rw [splitBlankAux_no b [] (h b (List.mem_cons_self _ _)).1]
      rfl
    | cons b2 rest2 =>
      show splitBlankAux (b ++ '\n' :: '\n' :: joinNN (b2 :: rest2)) [] = _
      rw [splitBlankAux_append b _ [] (h b (List.mem_cons_self _ _)).1
        (h b (List.mem_cons_self _ _)).2]
      have := ih (by simp) (fun x hx => h x (List.mem_cons_of_mem _ hx))
      unfold pySplitBlank at this
      rw [this]
      rfl

/-! Arrow-separator split lemmas. -/

theorem splitArrowAux_cons (c : Char) (L acc : List Char) (hc : c ≠ ' ')
    (hL : 4 ≤ L.length) :
    splitArrowAux (c :: L) acc = splitArrowAux L (c :: acc) := by
  rcases L with _ | ⟨d1, _ | ⟨d2, _ | ⟨d3, _ | ⟨d4, L5⟩⟩⟩⟩
  · simp at hL
  · simp at hL
  · simp at hL
  · simp at hL
  · rw [splitArrowAux]
    rw [if_neg (fun hand => hc hand.1)]

theorem splitArrowAux_no (l acc : List Char) (h : ∀ c ∈ l, c ≠ ' ') :
    splitArrowAux l acc = [acc.reverse ++ l] := by
  induction l generalizing acc with
  | nil => simp [splitArrowAux]
  | cons c L ih =>
    have hc : c ≠ ' ' := h c (List.mem_cons_self _ _)
    by_cases hL : 4 ≤ L.length
    · rw [splitArrowAux_cons c L acc hc hL,
        ih (c :: acc) (fun d hd => h d (List.mem_cons_of_mem _ hd))]
      simp
    · rcases L with _ | ⟨d1, _ | ⟨d2, _ | ⟨d3, _ | ⟨d4, L5⟩⟩⟩⟩
      · simp [splitArrowAux]
      · simp [splitArrowAux]
      · simp [splitArrowAux]
      · simp [splitArrowAux]
      · exact absurd (by simp) hL

theorem splitArrowAux_append (a b acc : List Char) (h : ∀ c ∈ a, c ≠ ' ') :
    splitArrowAux (a ++ arrowSep ++ b) acc =
      (acc.reverse ++ a) :: splitArrowAux b [] := by
  induction a generalizing acc with
  | nil =>
    show splitArrowAux (' ' :: '-' :: '-' :: '>' :: ' ' :: b) acc = _
    rw [splitArrowAux]
    rw [if_pos ⟨rfl, rfl, rfl, rfl, rfl⟩]
    simp
  | cons c a2 ih =>
    have hc : c ≠ ' ' := h c (List.mem_cons_self _ _)
    have hL : 4 ≤ (a2 ++ arrowSep ++ b).length := by
      simp only [List.length_append, arrowSep, List.length_cons, List.length_nil]
      omega
    show splitArrowAux (c :: (a2 ++ arrowSep ++ b)) acc = _
    rw [splitArrowAux_cons c _ acc hc hL,
      ih (c :: acc) (fun d hd => h d (List.mem_cons_of_mem _ hd))]
    simp

theorem not_mem_of_forall_ne {l : List Char} {d : Char}
    (h : ∀ c ∈ l, c ≠ d) : d ∉ l := fun hm => h d hm rfl

theorem pySplitArrow_two (u v : List Char) (hu : ∀ c ∈ u, c ≠ ' ')
    (hv : ∀ c ∈ v, c ≠ ' ') :
    pySplitArrow (u ++ arrowSep ++ v) = [u, v] := by
  unfold pySplitArrow
  rw [splitArrowAux_append u v [] hu, splitArrowAux_no v [] hv]
  rfl

/-! Timestamp round trip. -/

theorem pad2_ne (z : Int) (d : Char) (hd : isDigitCh d = false) (hd2 : d ≠ '-') :
    ∀ c ∈ pad2 z, c ≠ d := by
  intro c hc
  rcases pad2_mem z c hc with h | h
  · exact ne_of_digit c d h hd
  · subst h
    exact fun he => hd2 he.symm

theorem pad3_ne (z : Int) (d : Char) (hd : isDigitCh d = false) (hd2 : d ≠ '-') :
    ∀ c ∈ pad3 z, c ≠ d := by
  intro c hc
  rcases pad3_mem z c hc with h | h
  · exact ne_of_digit c d h hd
  · subst h
    exact fun he => hd2 he.symm

theorem parse_timestamp_format (ms : Int) :
    parse_timestamp (format_timestamp ms) = some ms := by
  have hassoc : format_timestamp ms =
      (pad2 (ms / 3600000) ++ ':' ::
        (pad2 ((ms % 3600000) / 60000) ++ ':' ::
          pad2 ((ms % 60000) / 1000))) ++ ',' ::
        pad3 (ms % 1000) := by
    unfold format_timestamp
    simp [List.append_assoc]
  have hcomma : (',' : Char) ∉
      (pad2 (ms / 3600000) ++ ':' ::
        (pad2 ((ms % 3600000) / 60000) ++ ':' ::
          pad2 ((ms % 60000) / 1000))) := by
    apply not_mem_of_forall_ne
    simp only [List.forall_mem_append, List.forall_mem_cons]
    exact ⟨pad2_ne _ ',' (by decide) (by decide), by decide,
      pad2_ne _ ',' (by decide) (by decide), by decide,
      pad2_ne _ ',' (by decide) (by decide)⟩
  unfold parse_timestamp
  rw [hassoc, pySplitChar_append ',' _ _ hcomma,
    pySplitChar_not_mem ',' _
      (not_mem_of_forall_ne (pad3_ne _ ',' (by decide) (by decide)))]
  dsimp only
  rw [pySplitChar_append ':' _ _
      (not_mem_of_forall_ne (pad2_ne _ ':' (by decide) (by decide))),
    pySplitChar_append ':' _ _
      (not_mem_of_forall_ne (pad2_ne _ ':' (by decide) (by decide))),
    pySplitChar_not_mem ':' _
      (not_mem_of_forall_ne (pad2_ne _ ':' (by decide) (by decide)))]
  dsimp only
  rw [parseIntChars_pad2, parseIntChars_pad2, parseIntChars_pad2,
    parseIntChars_pad3 _ (by omega) (by omega)]
  dsimp only
  congr 1
  omega

/-! Character facts about timing lines and blocks. -/

theorem format_timestamp_eq (ms : Int) : format_timestamp ms =
    pad2 (ms / 3600000) ++ ':' :: (pad2 ((ms % 3600000) / 60000) ++ ':' ::
      (pad2 ((ms % 60000) / 1000) ++ ',' :: pad3 (ms % 1000))) := by
  simp only [format_timestamp, List.append_assoc, List.cons_append]

theorem format_timestamp_ne (ms : Int) (d : Char) (hd : isDigitCh d = false)
    (h1 : d ≠ '-') (h2 : d ≠ ':') (h3 : d ≠ ',') :
    ∀ c ∈ format_timestamp ms, c ≠ d := by
  intro c hc
  rw [format_timestamp_eq] at hc
  simp only [List.mem_append, List.mem_cons] at hc
  rcases hc with h | h | h | h | h | h | h
  · exact pad2_ne _ d hd h1 c h
  · subst h
    exact fun he => h2 he.symm
  · exact pad2_ne _ d hd h1 c h
  · subst h
    exact fun he => h2 he.symm
  · exact pad2_ne _ d hd h1 c h
  · subst h
    exact fun he => h3 he.symm
  · exact pad3_ne _ d hd h1 c h

theorem format_timestamp_ne_nil (ms : Int) : format_timestamp ms ≠ [] := by
  rw [format_timestamp_eq]
  intro he
  exact absurd (List.append_eq_nil.mp he).1 (pad2_ne_nil _)

theorem timingLine_ne_nl (s : Segment) : ∀ c ∈ timingLine s, c ≠ '\n' := by
  intro c hc
  unfold timingLine at hc
  rcases List.mem_append.mp hc with h12 | h3
  · rcases List.mem_append.mp h12 with h1 | h2
    · exact format_timestamp_ne _ '\n' (by decide) (by decide) (by decide)
        (by decide) c h1
    · simp only [arrowSep, List.mem_cons, List.not_mem_nil, or_false] at h2
      rcases h2 with rfl | rfl | rfl | rfl | rfl <;> decide
  · exact format_timestamp_ne _ '\n' (by decide) (by decide) (by decide)
      (by decide) c h3

theorem pySplitArrow_timingLine (s : Segment) :
    pySplitArrow (timingLine s) =
      [format_timestamp s.start_ms, format_timestamp s.end_ms] :=
  pySplitArrow_two _ _
    (format_timestamp_ne _ ' ' (by decide) (by decide) (by decide) (by decide))
    (format_timestamp_ne _ ' ' (by decide) (by decide) (by decide) (by decide))

theorem pad2_firstIsNl (z : Int) : firstIsNl (pad2 z) = false := by
  cases hp : pad2 z with
  | nil => exact absurd hp (pad2_ne_nil z)
  | cons c r =>
    have hc : c ≠ '\n' := pad2_ne z '\n' (by decide) (by decide) c
      (hp ▸ List.mem_cons_self _ _)
    simp [firstIsNl, hc]

theorem timingLine_firstIsNl (s : Segment) : firstIsNl (timingLine s) = false := by
  unfold timingLine
  rw [firstIsNl_append _ _ (fun he =>
    absurd (List.append_eq_nil.mp he).1 (format_timestamp_ne_nil _))]
  rw [firstIsNl_append _ _ (format_timestamp_ne_nil _)]
  rw [format_timestamp_eq]
  rw [firstIsNl_append _ _ (pad2_ne_nil _)]
  exact pad2_firstIsNl _

theorem timingLine_ne_nil (s : Segment) : timingLine s ≠ [] := by
  unfold timingLine
  intro he
  have h1 := List.append_eq_nil.mp he
  have h2 := List.append_eq_nil.mp h1.1
  exact absurd h2.2 (by simp [arrowSep])

theorem firstIsNl_false_of_firstNonWs (l : List Char)
    (h : firstNonWs l = true) : firstIsNl l = false := by
  cases l with
  | nil => rfl
  | cons c r =>
    simp only [firstNonWs, Bool.not_eq_true'] at h
    have hc : c ≠ '\n' := by
      intro he
      subst he
      exact absurd h (by decide)
    simp [firstIsNl, hc]

/-! Embedded-blank-line helpers. -/

theorem hasNN_cons_eq (c : Char) (l : List Char) :
    hasNN (c :: l) = ((decide (c = '\n') && firstIsNl l) || hasNN l) := by
  cases l with
  | nil => simp [hasNN, firstIsNl]
  | cons c2 r => simp [hasNN, firstIsNl]

theorem hasNN_cons_false (c : Char) (l : List Char)
    (h1 : c = '\n' → firstIsNl l = false) (h2 : hasNN l = false) :
    hasNN (c :: l) = false := by
  rw [hasNN_cons_eq, h2]
  by_cases hc : c = '\n'
  · simp [hc, h1 hc]
  · simp [hc]

theorem hasNN_append_noNl (a b : List Char) (ha : ∀ c ∈ a, c ≠ '\n')
    (hb : hasNN b = false) : hasNN (a ++ b) = false := by
  induction a with
  | nil => simpa using hb
  | cons c a2 ih =>
    show hasNN (c :: (a2 ++ b)) = false
    refine hasNN_cons_false c _ ?_ (ih (fun d hd => ha d (List.mem_cons_of_mem _ hd)))
    intro hc
    exact absurd hc (ha c (List.mem_cons_self _ _))

/-! Facts about one SRT block. -/

theorem goodText_parts (t : List Char) (h : goodText t = true) :
    firstNonWs t = true ∧ firstNonWs t.reverse = true ∧ hasNN t = false := by
  unfold goodText at h
  simp only [Bool.and_eq_true, Bool.not_eq_true'] at h
  exact ⟨h.1.1, h.1.2, h.2⟩

theorem goodText_ne_nil (t : List Char) (h : goodText t = true) : t ≠ [] := by
  intro he
  subst he
  simp [goodText, firstNonWs] at h

theorem blockOf_firstNonWs (s : Segment) (i : Nat) :
    firstNonWs (blockOf s i) = true := by
  unfold blockOf
  rw [firstNonWs_append _ _ (natToChars_ne_nil i)]
  exact firstNonWs_of_mem_digit _ (natToChars_mem_digit i) (natToChars_ne_nil i)

theorem firstNonWs_reverse_of_append (a b : List Char) (hb : b ≠ []) :
    firstNonWs (a ++ b).reverse = firstNonWs b.reverse := by
  rw [List.reverse_append]
  exact firstNonWs_append _ _ (by simpa using hb)

theorem blockOf_assoc (s : Segment) (i : Nat) :
    blockOf s i = (natToChars i ++ '\n' :: (timingLine s ++ ['\n'])) ++
      s.text.data := by
  unfold blockOf
  simp

theorem blockOf_rev_firstNonWs (s : Segment) (i : Nat)
    (hg : goodText s.text.data = true) :
    firstNonWs (blockOf s i).reverse = true := by
  rw [blockOf_assoc,
    firstNonWs_reverse_of_append _ _ (goodText_ne_nil _ hg)]
  exact (goodText_parts _ hg).2.1

theorem lastIsNl_blockOf (s : Segment) (i : Nat)
    (hg : goodText s.text.data = true) : lastIsNl (blockOf s i) = false := by
  unfold lastIsNl
  exact firstIsNl_false_of_firstNonWs _ (blockOf_rev_firstNonWs s i hg)

theorem hasNN_blockOf (s : Segment) (i : Nat)
    (hg : goodText s.text.data = true) : hasNN (blockOf s i) = false := by
  obtain ⟨g1, g2, g3⟩ := goodText_parts _ hg
  unfold blockOf
  apply hasNN_append_noNl _ _ (fun c hc => ne_of_digit c '\n'
    (natToChars_mem_digit i c hc) (by decide))
  refine hasNN_cons_false _ _ (fun _ => ?_) ?_
  · rw [firstIsNl_append _ _ (timingLine_ne_nil s)]
    exact timingLine_firstIsNl s
  · apply hasNN_append_noNl _ _ (timingLine_ne_nl s)
    refine hasNN_cons_false _ _ (fun _ => ?_) g3
    exact firstIsNl_false_of_firstNonWs _ g1

/-! Joining blocks with blank lines. -/

theorem blockOf_ne_nil (s : Segment) (i : Nat) : blockOf s i ≠ [] := by
  unfold blockOf
  intro he
  exact absurd (List.append_eq_nil.mp he).2 (by simp)

theorem joinNN_ne_nil (b : List Char) (bs : List (List Char)) (hb : b ≠ []) :
    joinNN (b :: bs) ≠ [] := by
  cases bs with
  | nil => exact hb
  | cons b2 rest =>
    show b ++ '\n' :: '\n' :: joinNN (b2 :: rest) ≠ []
    intro he
    exact absurd (List.append_eq_nil.mp he).2 (by simp)

theorem firstNonWs_joinNN_cons (b : List Char) (bs : List (List Char))
    (hb : b ≠ []) (h1 : firstNonWs b = true) :
    firstNonWs (joinNN (b :: bs)) = true := by
  cases bs with
  | nil => exact h1
  | cons b2 rest =>
    show firstNonWs (b ++ '\n' :: '\n' :: joinNN (b2 :: rest)) = true
    rw [firstNonWs_append _ _ hb]
    exact h1

theorem firstNonWs_rev_joinNN (bs : List (List Char)) :
    bs ≠ [] → (∀ b ∈ bs, b ≠ [] ∧ firstNonWs b.reverse = true) →
    firstNonWs (joinNN bs).reverse = true := by
  induction bs with
  | nil =>
    intro hne _
    exact absurd rfl hne
  | cons b bs2 ih =>
    intro _ h
    cases bs2 with
    | nil => exact (h b (List.mem_cons_self _ _)).2
    | cons b2 rest2 =>
      show firstNonWs (b ++ '\n' :: '\n' :: joinNN (b2 :: rest2)).reverse = true
      rw [firstNonWs_reverse_of_append _ _ (by simp)]
      have hJ : joinNN (b2 :: rest2) ≠ [] :=
        joinNN_ne_nil b2 rest2
          (h b2 (List.mem_cons_of_mem _ (List.mem_cons_self _ _))).1
      have hrec := ih (by simp) (fun x hx => h x (List.mem_cons_of_mem _ hx))
      rw [List.reverse_cons, List.reverse_cons]
      rw [firstNonWs_append _ _ (by simp)]
      rw [firstNonWs_append _ _ (by simpa using hJ)]
      exact hrec

theorem blockList_mem_props (segs : List Segment) :
    ∀ i : Nat, (∀ s ∈ segs, goodText s.text.data = true) →
    ∀ b ∈ blockList segs i,
      (b ≠ [] ∧ firstNonWs b = true ∧ firstNonWs b.reverse = true) ∧
        hasNN b = false ∧ lastIsNl b = false := by
  induction segs with
  | nil =>
    intro i _ b hb
    simp [blockList] at hb
  | cons s rest ih =>
    intro i h b hb
    simp only [blockList, List.mem_cons] at hb
    cases hb with
    | inl hb =>
      subst hb
      have hg := h s (List.mem_cons_self _ _)
      exact ⟨⟨blockOf_ne_nil s i, blockOf_firstNonWs s i,
        blockOf_rev_firstNonWs s i hg⟩, hasNN_blockOf s i hg,
        lastIsNl_blockOf s i hg⟩
    | inr hb =>
      exact ih (i + 1) (fun x hx => h x (List.mem_cons_of_mem _ hx)) b hb

/-! `generate_srt` produces exactly the blank-line-joined blocks followed by
one trailing newline. -/

theorem joinChar_block_cons (idx timing text : List Char)
    (rest : List (List Char)) (hr : rest ≠ []) :
    joinChar '\n' (idx :: timing :: text :: [] :: rest) =
      (idx ++ '\n' :: (timing ++ '\n' :: text)) ++
        '\n' :: '\n' :: joinChar '\n' rest := by
  cases rest with
  | nil => exact absurd rfl hr
  | cons r rs =>
    simp only [joinChar]
    simp [List.append_assoc]

theorem joinChar_block_last (idx timing text : List Char) :
    joinChar '\n' [idx, timing, text, []] =
      (idx ++ '\n' :: (timing ++ '\n' :: text)) ++ ['\n'] := by
  simp only [joinChar]
  simp [List.append_assoc]

theorem joinChar_srtLines (segs : List Segment) :
    ∀ i : Nat, segs ≠ [] →
    joinChar '\n' (srtLines segs i) = joinNN (blockList segs i) ++ ['\n'] := by
  induction segs with
  | nil =>
    intro i h
    exact absurd rfl h
  | cons s rest ih =>
    intro i _
    cases rest with
    | nil =>
      show joinChar '\n' [natToChars i, timingLine s, s.text.data, []] = _
      rw [joinChar_block_last]
      rfl
    | cons s2 rest2 =>
      show joinChar '\n' (natToChars i :: timingLine s :: s.text.data :: [] ::
        srtLines (s2 :: rest2) (i + 1)) = _
      rw [joinChar_block_cons _ _ _ _ (by simp [srtLines])]
      rw [ih (i + 1) (by simp)]
      show _ = joinNN (blockOf s i :: blockList (s2 :: rest2) (i + 1)) ++ ['\n']
      rw [show joinNN (blockOf s i :: blockList (s2 :: rest2) (i + 1)) =
        blockOf s i ++ '\n' :: '\n' :: joinNN (blockList (s2 :: rest2) (i + 1))
        from rfl]
      simp [blockOf, List.append_assoc]

/-! Parsing the blocks back. -/

theorem pySplitChar_blockOf (s : Segment) (i : Nat) :
    pySplitChar '\n' (blockOf s i) =
      natToChars i :: timingLine s :: pySplitChar '\n' s.text.data := by
  unfold blockOf
  rw [pySplitChar_append '\n' _ _ (not_mem_of_forall_ne
    (fun c hc => ne_of_digit c '\n' (natToChars_mem_digit i c hc) (by decide)))]
  rw [pySplitChar_append '\n' _ _ (not_mem_of_forall_ne (timingLine_ne_nl s))]

theorem parseBlocks_cons (s : Segment) (i : Nat) (bs : List (List Char))
    (hg : goodText s.text.data = true) (tail : List ParsedSeg)
    (htail : parseBlocks bs = some tail) :
    parseBlocks (blockOf s i :: bs) =
      some (⟨(i : Int), s.start_ms, s.end_ms, s.text.data⟩ :: tail) := by
  obtain ⟨l2, lrest, htext⟩ : ∃ l2 lrest,
      pySplitChar '\n' s.text.data = l2 :: lrest := by
    cases hx : pySplitChar '\n' s.text.data with
    | nil => exact absurd hx (pySplitChar_ne_nil '\n' _)
    | cons a b => exact ⟨a, b, rfl⟩
  rw [parseBlocks]
  rw [pyStrip_eq_self _ (blockOf_firstNonWs s i) (blockOf_rev_firstNonWs s i hg)]
  rw [pySplitChar_blockOf, htext]
  dsimp only
  rw [parseIntChars_natToChars]
  dsimp only
  rw [pySplitArrow_timingLine]
  dsimp only
  rw [parse_timestamp_format, parse_timestamp_format]
  dsimp only
  rw [htail]
  dsimp only
  rw [← htext, joinChar_pySplitChar]

theorem parseBlocks_blockList (segs : List Segment) :
    ∀ i : Nat, (∀ s ∈ segs, goodText s.text.data = true) →
    parseBlocks (blockList segs i) = some (expectedParsed segs i) := by
  induction segs with
  | nil =>
    intro i _
    rfl
  | cons s rest ih =>
    intro i h
    show parseBlocks (blockOf s i :: blockList rest (i + 1)) = _
    rw [parseBlocks_cons s i _ (h s (List.mem_cons_self _ _)) _
      (ih (i + 1) (fun x hx => h x (List.mem_cons_of_mem _ hx)))]
    rfl

/-- Claim C9 (amended): for every segment list in which each entry's text
starts and ends with a non-whitespace character and contains no embedded
blank line, re-parsing the generated subtitle content reproduces, for every
entry, the 1-based sequential index, the same start_ms and end_ms, and the
same text. -/
theorem srt_round_trip (segs : List Segment)
    (h : ∀ s ∈ segs, goodText s.text.data = true) :
    parse_srt (generate_srt segs) = some (expectedParsed segs 1) := by
  cases segs with
  | nil => rfl
  | cons s rest =>
    have hprops := blockList_mem_props (s :: rest) 1 h
    have hne : blockList (s :: rest) 1 ≠ [] := by simp [blockList]
    have h1 : firstNonWs (joinNN (blockList (s :: rest) 1)) = true := by
      show firstNonWs (joinNN (blockOf s 1 :: blockList rest 2)) = true
      exact firstNonWs_joinNN_cons _ _ (blockOf_ne_nil s 1)
        (blockOf_firstNonWs s 1)
    have h2 : firstNonWs (joinNN (blockList (s :: rest) 1)).reverse = true :=
      firstNonWs_rev_joinNN _ hne
        (fun b hb => ⟨(hprops b hb).1.1, (hprops b hb).1.2.2⟩)
    unfold parse_srt generate_srt
    rw [joinChar_srtLines (s :: rest) 1 (by simp)]
    rw [pyStrip_append_nl _ h1 h2]
    rw [show pySplitBlank (joinNN (blockList (s :: rest) 1)) =
      blockList (s :: rest) 1 from
      pySplitBlank_joinNN _ hne (fun b hb => (hprops b hb).2)]
    exact parseBlocks_blockList (s :: rest) 1 h

/-- Witness for `srt_round_trip`: two concrete segments with ordinary
one-line texts round-trip to index 1 and 2 with their own timings. -/
theorem srt_round_trip_witness :
    (∀ s ∈ ([⟨1, "male_us_1", "Hello world.", 300, 2500, 2200, 1⟩,
        ⟨2, "female_us_1", "Goodbye world.", 3000, 5000, 2000, 1⟩] :
          List Segment), goodText s.text.data = true) ∧
    parse_srt (generate_srt
        ([⟨1, "male_us_1", "Hello world.", 300, 2500, 2200, 1⟩,
          ⟨2, "female_us_1", "Goodbye world.", 3000, 5000, 2000, 1⟩] :
            List Segment)) =
      some (expectedParsed
        ([⟨1, "male_us_1", "Hello world.", 300, 2500, 2200, 1⟩,
          ⟨2, "female_us_1", "Goodbye world.", 3000, 5000, 2000, 1⟩] :
            List Segment) 1) :=
  ⟨by decide, srt_round_trip _ (by decide)⟩

/-- Counterexample to C9 as stated for every segment list: a segment whose
text is empty yields a block of only two non-empty lines once the trailing
newlines are stripped, which `parse_srt` skips, so the entry is lost instead
of being reproduced. -/
theorem srt_round_trip_counterexample :
    parse_srt (generate_srt
        ([⟨1, "male_us_1", "", 300, 2500, 2200, 1⟩] : List Segment)) =
      some [] ∧
    expectedParsed
        ([⟨1, "male_us_1", "", 300, 2500, 2200, 1⟩] : List Segment) 1 =
      [⟨1, 300, 2500, []⟩] :=
  ⟨rfl, rfl⟩

end TtsSrt
